import Mathlib

/-!
Verification development for the SQL-template compiler of the `gen` package
(`RenderSQLTemplate` and the `Node` AST in `src/typed/query.go`, lines 342-694
of that file; an earlier revision of the same file appears as
`src/unnamed/part_001`).

The compiler is a pure string-to-string transformation.  We embed it over
`List Char` (Go strings are byte strings; all inputs of interest are ASCII,
where Go's byte indexing, the `strings` functions and the `[A-Za-z0-9_.]`
regex class coincide with the character-level model used here).

Recursive functions are written with an explicit structural fuel argument
(always at least the length/size bound of the data, supplied by a wrapper),
so that every definition evaluates by kernel reduction; fuel-irrelevance
lemmas in the theorem section recover the natural defining equations.
-/

namespace GenTpl

/-- Whitespace as trimmed by Go's `strings.TrimSpace` (ASCII fragment). -/
def isSpaceC (c : Char) : Bool :=
  c = ' ' ∨ c = '\t' ∨ c = '\n' ∨ c = '\r'

/-- The regex character class `[A-Za-z0-9_.]` of `rePlaceholder`
(`src/typed/query.go` line 361). -/
def isWordC (c : Char) : Bool :=
  (('A' ≤ c ∧ c ≤ 'Z') ∨ ('a' ≤ c ∧ c ≤ 'z') ∨ ('0' ≤ c ∧ c ≤ '9') ∨ c = '_' ∨ c = '.')

/-- `strings.TrimSpace`. -/
def trimS (s : List Char) : List Char :=
  ((s.dropWhile isSpaceC).reverse.dropWhile isSpaceC).reverse

/-- ASCII lower-casing on one character, to model `strings.EqualFold`
comparisons of ASCII suffixes such as `"AND"`. -/
def lowerC (c : Char) : Char :=
  if 'A' ≤ c ∧ c ≤ 'Z' then Char.ofNat (c.toNat + 32) else c

/-- `strings.Index s pat`: position of the first occurrence of `pat` in `s`
(`none` for Go's `-1`; the patterns used by the code are all nonempty). -/
def findSub (s pat : List Char) : Option Nat :=
  match s with
  | [] => if pat = [] then some 0 else none
  | _ :: rest => if pat.isPrefixOf s then some 0 else (findSub rest pat).map (· + 1)

/-- `strings.Contains`. -/
def containsSub (s pat : List Char) : Bool :=
  (findSub s pat).isSome

/-- `strings.Count s sep` for a one-character separator: the number of
occurrences of that character. -/
def countC (s : List Char) (c : Char) : Nat :=
  (s.filter (· = c)).length

/-- `strings.Split tmpl "\n")` (`src/typed/query.go` line 636). -/
def splitNl : List Char → List (List Char)
  | [] => [[]]
  | c :: rest =>
      if c = '\n' then [] :: splitNl rest
      else
        match splitNl rest with
        | [] => [[c]]
        | l :: ls => (c :: l) :: ls

/-- The marker `TextNode.Emit` substitutes for a backslash-escaped sigil
before running the placeholder regex: `"___ESCAPED_AT___"`
(`src/typed/query.go` line 369). -/
def escTok : List Char :=
  ['_', '_', '_', 'E', 'S', 'C', 'A', 'P', 'E', 'D', '_', 'A', 'T', '_', '_', '_']

/-- `strings.ReplaceAll str "\\@" escapedToken` (line 370): replace each
occurrence of backslash followed by sigil, left to right, non-overlapping. -/
def replEsc : List Char → List Char
  | [] => []
  | '\\' :: '@' :: rest => escTok ++ replEsc rest
  | c :: rest => c :: replEsc rest

/-- Fueled worker for `restoreEsc`; the fuel dominates the input length. -/
def restoreEscGo : Nat → List Char → List Char
  | 0, s => s
  | _ + 1, [] => []
  | n + 1, c :: rest =>
      if escTok.isPrefixOf (c :: rest) then '@' :: restoreEscGo n (rest.drop 15)
      else c :: restoreEscGo n rest

/-- `strings.ReplaceAll replaced escapedToken "@"` (line 388): every
occurrence of the escape marker becomes one sigil character. -/
def restoreEsc (s : List Char) : List Char :=
  restoreEscGo s.length s

/-- `strings.ReplaceAll replaced "\"" "\\\""` (line 389): every quote gets a
backslash put in front of it (Go `ReplaceAll` does not rescan replacements). -/
def escQuote : List Char → List Char
  | [] => []
  | '"' :: rest => '\\' :: '"' :: escQuote rest
  | c :: rest => c :: escQuote rest

/-- A positional bind expression recorded by the extractor, in match order.
`table` stands for the `clause.CurrentTable` sentinel appended for
`@@table`, `expr s` for the `gorm.Expr("?", s)` wrapper appended for `@@s`,
and `val s` for the plain expression `s` appended for `@s`
(`src/typed/query.go` lines 373-386). -/
inductive Bind where
  | table : Bind
  | expr (s : List Char) : Bind
  | val (s : List Char) : Bind
  deriving Repr, DecidableEq

/-- Fueled worker for `scanPH`; the fuel dominates the input length. -/
def scanPHGo : Nat → List Char → List Char × List Bind
  | 0, s => (s, [])
  | _ + 1, [] => ([], [])
  | n + 1, '@' :: '@' :: 't' :: 'a' :: 'b' :: 'l' :: 'e' :: rest =>
      let r := scanPHGo n rest
      ('?' :: r.1, .table :: r.2)
  | n + 1, '@' :: '@' :: rest =>
      let w := rest.takeWhile isWordC
      if w = [] then
        -- no alternative matches at the first sigil; emit it and retry from
        -- the second sigil, as the regex engine advances one position
        let r := scanPHGo n ('@' :: rest)
        ('@' :: r.1, r.2)
      else
        let r := scanPHGo n (rest.dropWhile isWordC)
        ('?' :: r.1, .expr w :: r.2)
  | n + 1, '@' :: rest =>
      let w := rest.takeWhile isWordC
      if w = [] then
        let r := scanPHGo n rest
        ('@' :: r.1, r.2)
      else
        let r := scanPHGo n (rest.dropWhile isWordC)
        ('?' :: r.1, .val w :: r.2)
  | n + 1, c :: rest =>
      let r := scanPHGo n rest
      (c :: r.1, r.2)

/-- `rePlaceholder.ReplaceAllStringFunc` (lines 361, 373-386): scan left to
right; at each position try, in this order (Go regexp alternation is
leftmost-first), the literal `@@table`, then `@@` followed by a nonempty
`[A-Za-z0-9_.]+` run, then `@` followed by such a run; replace a match by `?`
and record its bind; otherwise keep the character and move on one position. -/
def scanPH (s : List Char) : List Char × List Bind :=
  scanPHGo s.length s

/-- The placeholder-extraction pass of `TextNode.Emit` applied to the
(already trimmed) literal: escape substitution, regex replacement, escape
restoration, quote escaping (`src/typed/query.go` lines 369-389).  Returns
the rewritten literal and the bind expressions in match order. -/
def extractText (s : List Char) : List Char × List Bind :=
  let s1 := replEsc s
  let r := scanPH s1
  (escQuote (restoreEsc r.1), r.2)

/-- The AST of the template language (`src/typed/query.go` lines 351-464):
`text` is `TextNode`, `func` is `FuncNode` (a `where`/`set` wrapper),
`forN` is `ForNode`, `ifN` is `IfNode` with its list of `IfBranch`es
(condition, body) and the optional else body (empty list when absent). -/
inductive Node where
  | text (s : List Char)
  | func (name : List Char) (body : List Node)
  | forN (expr : List Char) (body : List Node)
  | ifN (branches : List (List Char × List Node)) (elseBody : List Node)

/-- The Go source text of one bind expression as `TextNode.Emit` appends it
to the generated `params = append(params, ...)` statement
(`src/typed/query.go` lines 376-382). -/
def bindExprText : Bind → List Char
  | .table => "clause.CurrentTable".toList
  | .expr s => "gorm.Expr(\"?\", ".toList ++ s ++ ")".toList
  | .val s => s

/-- Go `%q` escaping of one character (ASCII-printable fragment, which is
all the generated literals use). -/
def goQuoteEsc : List Char → List Char
  | [] => []
  | c :: rest =>
      (if c = '\\' then ['\\', '\\']
       else if c = '"' then ['\\', '"']
       else if c = '\n' then ['\\', 'n']
       else if c = '\t' then ['\\', 't']
       else [c]) ++ goQuoteEsc rest

/-- Go `fmt.Sprintf("%q", s)` on an ASCII-printable string. -/
def goQuote (s : List Char) : List Char :=
  '"' :: (goQuoteEsc s ++ ['"'])

/-- Comma-space separated join, as `strings.Join(params, ", ")`
(`src/typed/query.go` line 394). -/
def joinComma : List (List Char) → List Char
  | [] => []
  | [s] => s
  | s :: rest => s ++ ", ".toList ++ joinComma rest

/-- Decimal digit character. -/
def digitC (n : Nat) : Char :=
  Char.ofNat (48 + n)

/-- Fueled worker for `natChars`. -/
def natCharsGo : Nat → Nat → List Char
  | 0, _ => []
  | f + 1, n => if n < 10 then [digitC n] else natCharsGo f (n / 10) ++ [digitC (n % 10)]

/-- Decimal representation of a natural number (Go `%d`). -/
def natChars (n : Nat) : List Char :=
  natCharsGo (n + 1) n

mutual

/-- `Node.Emit` (`src/typed/query.go` lines 363-397, 405-436, 444-452,
466-487): the generated Go statements for one node, with the indent and
target-builder arguments threaded exactly as in the source. -/
def emitNode : Node → List Char → List Char → List Char
  | .text s, ind, tgt =>
      -- TextNode.Emit: skip whitespace-only literals; otherwise print the
      -- extracted literal plus a trailing " " operand, then the params line
      let str := trimS s
      if str = [] then []
      else
        let r := extractText str
        ind ++ "fmt.Fprint(&".toList ++ tgt ++ ", ".toList ++ goQuote r.1 ++ ", \" \")\n".toList ++
        (if r.2 = [] then []
         else ind ++ "params = append(params, ".toList ++ joinComma (r.2.map bindExprText) ++ ")\n".toList)
  | .func name body, ind, tgt =>
      -- FuncNode.Emit: a block with a local builder `tmp`, the body emitted
      -- into it, then the trim/wrap logic on `c`
      ind ++ "\x7b\n".toList ++
      ind ++ "\tvar tmp strings.Builder\n".toList ++
      emitNodes body (ind ++ ['\t']) "tmp".toList ++
      ind ++ "\tc := strings.TrimSpace(tmp.String())\n".toList ++
      ind ++ "\tif c != \"\" \x7b\n".toList ++
      (if name = "where".toList then
        ind ++ "\t\tfmt.Fprint(&".toList ++ tgt ++ ", \"WHERE \")\n".toList ++
        ind ++ "\t\tif len(c) >= 3 && strings.EqualFold(c[len(c)-3:], \"AND\") \x7b\n".toList ++
        ind ++ "\t\t\tc = strings.TrimSpace(c[:len(c)-3])\n".toList ++
        ind ++ "\t\t\x7d else if len(c) >= 2 && strings.EqualFold(c[len(c)-2:], \"OR\") \x7b\n".toList ++
        ind ++ "\t\t\tc = strings.TrimSpace(c[:len(c)-2])\n".toList ++
        ind ++ "\t\t\x7d\n".toList ++
        ind ++ "\t\tfmt.Fprint(&".toList ++ tgt ++ ", \"WHERE \")\n".toList ++
        ind ++ "\t\tfmt.Fprint(&".toList ++ tgt ++ ", c, \" \")\n".toList
      else if name = "set".toList then
        ind ++ "\t\tif strings.HasSuffix(c, \",\") \x7b\n".toList ++
        ind ++ "\t\t\tc = strings.TrimSpace(strings.TrimRight(c, \",\"))\n".toList ++
        ind ++ "\t\t\x7d\n".toList ++
        ind ++ "\t\tfmt.Fprint(&".toList ++ tgt ++ ", \"SET \")\n".toList ++
        ind ++ "\t\tfmt.Fprint(&".toList ++ tgt ++ ", c, \" \")\n".toList
      else
        -- Go panics here ("unsupported func ... in sql tempalte"); the
        -- parser only ever builds "where"/"set" names, so this branch is
        -- unreachable on parser output
        []) ++
      ind ++ "\t\x7d\n".toList ++
      ind ++ "\x7d\n".toList
  | .forN e body, ind, tgt =>
      -- ForNode.Emit
      ind ++ "for ".toList ++ e ++ " \x7b\n".toList ++
      emitNodes body (ind ++ ['\t']) tgt ++
      ind ++ "\x7d\n".toList
  | .ifN brs els, ind, tgt =>
      -- IfNode.Emit: the branch chain, the else part only when ElseBody is
      -- nonempty, then the closing brace
      emitBranches brs true ind tgt ++
      (if els.isEmpty then []
       else ind ++ "\x7d else \x7b\n".toList ++ emitNodes els (ind ++ ['\t']) tgt) ++
      ind ++ "\x7d\n".toList

/-- Emission of a node list (the successive `c.Emit` calls in the loops of
the `Emit` methods). -/
def emitNodes : List Node → List Char → List Char → List Char
  | [], _, _ => []
  | nd :: nds, ind, tgt => emitNode nd ind tgt ++ emitNodes nds ind tgt

/-- Emission of the branch chain of `IfNode.Emit` (lines 469-478); the flag
records whether this is the first branch (`if`) or a later one
(`} else if`). -/
def emitBranches : List (List Char × List Node) → Bool → List Char → List Char → List Char
  | [], _, _, _ => []
  | (cond, body) :: rest, first, ind, tgt =>
      (if first then ind ++ "if ".toList ++ cond ++ " \x7b\n".toList
       else ind ++ "\x7d else if ".toList ++ cond ++ " \x7b\n".toList) ++
      emitNodes body (ind ++ ['\t']) tgt ++
      emitBranches rest false ind tgt

end

/-- The parameter-count estimation loop of `RenderSQLTemplate`
(`src/typed/query.go` lines 670-685): per root node, fold over the lines of
its emitted code carrying `(count, baseCount)`; `baseCount` switches to 4
when the whole code has `"\tfor "` at a positive index, and each line
containing `"params = append(params"` adds its comma count times
`baseCount`. -/
def countParams (code : List Char) : Nat :=
  ((splitNl code).foldl
    (fun (acc : Nat × Nat) line =>
      let bc := if (match findSub code "\tfor ".toList with
                    | some i => decide (0 < i)
                    | none => false) then 4 else acc.2
      let cnt := if containsSub line "params = append(params".toList then
                   acc.1 + countC line ',' * bc
                 else acc.1
      (cnt, bc))
    (0, 1)).1

/-- The code-assembly tail of `RenderSQLTemplate` (lines 664-693): the
`var sb`/`params := make(...)` prelude with the summed parameter-count
estimate, followed by each root node's emitted code in order. -/
def emitProgram (root : List Node) : List Char :=
  let codes := root.map (fun n => emitNode n [] "sb".toList)
  let paramsCount := (codes.map countParams).foldl (· + ·) 0
  "var sb strings.Builder\n".toList ++
  "params := make([]any, 0, ".toList ++ natChars paramsCount ++ ")\n\n".toList ++
  codes.foldl (· ++ ·) []

/-- One frame of the parser's stack of open blocks (`stackItem`,
`src/typed/query.go` lines 490-495).  For an `if` frame we keep the closed
branches, the branch currently being filled (Go's `branchIdx` always points
at the last branch), the `elsePart` flag and the else body. -/
inductive Frame where
  | ffunc (name : List Char) (body : List Node)
  | ffor (expr : List Char) (body : List Node)
  | fif (closed : List (List Char × List Node)) (cond : List Char)
        (body : List Node) (elseSeen : Bool) (elseBody : List Node)

/-- Append a node to the active body of a frame (`getBody`,
`src/typed/query.go` lines 504-521: the func/for body, the else body once
`elsePart` is set, or the branch currently being filled). -/
def addNode (fr : Frame) (n : Node) : Frame :=
  match fr with
  | .ffunc name body => .ffunc name (body ++ [n])
  | .ffor e body => .ffor e (body ++ [n])
  | .fif closed cond body elseSeen elseBody =>
      if elseSeen then .fif closed cond body elseSeen (elseBody ++ [n])
      else .fif closed cond (body ++ [n]) elseSeen elseBody

/-- Build the finished node from a closed frame.  In Go the node was already
linked into its parent when the frame was pushed and is merely mutated in
place; since a parent receives no other children while a child block is
open, attaching the finished child on `end` yields the same tree. -/
def closeFrame : Frame → Node
  | .ffunc name body => .func name body
  | .ffor e body => .forN e body
  | .fif closed cond body _ elseBody => .ifN (closed ++ [(cond, body)]) elseBody

/-- The parser state: the root node list and the stack of open blocks (top
of stack at the head). -/
structure PState where
  root : List Node
  stack : List Frame

/-- Append a finished node to the active body: the root when no block is
open, otherwise the top frame's active body. -/
def appendChild (st : PState) (n : Node) : PState :=
  match st.stack with
  | [] => ⟨st.root ++ [n], []⟩
  | top :: rest => ⟨st.root, addNode top n :: rest⟩

/-- `appendText` (`src/typed/query.go` lines 523-536): whitespace-only
spans are dropped; otherwise the raw span is stored as a `TextNode`. -/
def appendText (txt : List Char) (st : PState) : PState :=
  if trimS txt = [] then st else appendChild st (.text txt)

/-- `pushBlock`/`handleIfStart` (lines 538-564): open a new block frame. -/
def pushFrame (fr : Frame) (st : PState) : PState :=
  ⟨st.root, fr :: st.stack⟩

/-- The structured counterparts of the parse errors raised by
`RenderSQLTemplate` and its handlers; each constructor corresponds to one
`errors.New`/`fmt.Errorf` message in `src/typed/query.go`:
`missingClose` = "line %d: missing }}" (line 651),
`elseIfNoOpen` = "else if without an open if block" (line 568),
`elseIfOutsideIf` = "else if outside if block" (line 572),
`elseIfAfterElse` = "else if after else" (line 575),
`elseNoOpen` = "else without if" (line 586),
`elseOutsideIf` = "else outside if block" (line 590),
`dupElse` = "multiple else in same if block" (line 593),
`unmatchedEnd` = "unmatched end" (line 601),
`unknownDirective` = "unknown directive: %q (line %d)" (line 631),
`unclosedEOF` = "unclosed block(s) at EOF" (line 661). -/
inductive ErrKind where
  | missingClose
  | elseIfNoOpen
  | elseIfOutsideIf
  | elseIfAfterElse
  | elseNoOpen
  | elseOutsideIf
  | dupElse
  | unmatchedEnd
  | unknownDirective (dir : List Char)
  | unclosedEOF
  deriving Repr, DecidableEq

/-- A returned error: the 1-based line number the scan loop wraps around
handler errors via `fmt.Errorf("line %d: %w", i+1, err)` (line 656) — the
EOF check at line 661 wraps no line number — and the error kind. -/
structure Err where
  line : Option Nat
  kind : ErrKind
  deriving Repr, DecidableEq

/-- `handleElseIf` (`src/typed/query.go` lines 566-582). -/
def handleElseIf (cond : List Char) (st : PState) : Except ErrKind PState :=
  match st.stack with
  | [] => .error .elseIfNoOpen
  | top :: rest =>
      match top with
      | .fif closed c body elseSeen elseBody =>
          if elseSeen then .error .elseIfAfterElse
          else .ok ⟨st.root, .fif (closed ++ [(c, body)]) cond [] false elseBody :: rest⟩
      | _ => .error .elseIfOutsideIf

/-- `handleElse` (`src/typed/query.go` lines 584-597). -/
def handleElse (st : PState) : Except ErrKind PState :=
  match st.stack with
  | [] => .error .elseNoOpen
  | top :: rest =>
      match top with
      | .fif closed c body elseSeen elseBody =>
          if elseSeen then .error .dupElse
          else .ok ⟨st.root, .fif closed c body true elseBody :: rest⟩
      | _ => .error .elseOutsideIf

/-- `handleEnd` (`src/typed/query.go` lines 599-609). -/
def handleEnd (st : PState) : Except ErrKind PState :=
  match st.stack with
  | [] => .error .unmatchedEnd
  | top :: rest => .ok (appendChild ⟨st.root, rest⟩ (closeFrame top))

/-- `handleDirective` (`src/typed/query.go` lines 611-634), with the same
dispatch order as the Go `switch`. -/
def handleDirective (dir : List Char) (st : PState) : Except ErrKind PState :=
  if dir = "where".toList ∨ dir = "set".toList then
    .ok (pushFrame (.ffunc dir []) st)
  else if "for ".toList.isPrefixOf dir then
    .ok (pushFrame (.ffor (trimS (dir.drop 3)) []) st)
  else if "if ".toList.isPrefixOf dir then
    .ok (pushFrame (.fif [] (trimS (dir.drop 2)) [] false []) st)
  else if "else if ".toList.isPrefixOf dir then
    handleElseIf (trimS (dir.drop 8)) st
  else if dir = "else".toList then
    handleElse st
  else if dir = "end".toList then
    handleEnd st
  else
    .error (.unknownDirective dir)

/-- Fueled worker for `scanLine`; each step consumes at least four
characters of the remaining line, so the line length dominates. -/
def scanLineGo : Nat → Nat → List Char → PState → Except Err PState
  | 0, _, _, st => .ok st
  | n + 1, lineNo, rest, st =>
      match findSub rest ['\x7b', '\x7b'] with
      | none => .ok (appendText rest st)
      | some start =>
          let st1 := if 0 < start then appendText (rest.take start) st else st
          let rest1 := rest.drop (start + 2)
          match findSub rest1 ['\x7d', '\x7d'] with
          | none => .error ⟨some lineNo, .missingClose⟩
          | some stop =>
              let dir := trimS (rest1.take stop)
              let rest2 := rest1.drop (stop + 2)
              match handleDirective dir st1 with
              | .error k => .error ⟨some lineNo, k⟩
              | .ok st2 => scanLineGo n lineNo rest2 st2

/-- The inner scan loop of `RenderSQLTemplate` for one line
(`src/typed/query.go` lines 638-658): find `{{`, append the preceding text
(only when nonempty at a positive index, mirroring `if start > 0`), find the
closing `}}` (its absence is the missing-`}}` error), trim the directive
text, dispatch it, and continue on the remainder of the line. -/
def scanLine (lineNo : Nat) (rest : List Char) (st : PState) : Except Err PState :=
  scanLineGo (rest.length + 1) lineNo rest st

/-- The outer loop of `RenderSQLTemplate` over the `\n`-split lines
(lines 636-659), numbering lines from 1. -/
def parseLines : List (List Char) → Nat → PState → Except Err PState
  | [], _, st => .ok st
  | l :: ls, lineNo, st =>
      match scanLine lineNo l st with
      | .error e => .error e
      | .ok st1 => parseLines ls (lineNo + 1) st1

/-- The parsing phase of `RenderSQLTemplate` (lines 636-662): scan all
lines, then require the block stack to be empty (`unclosed block(s) at
EOF`, with no line number attached). -/
def parseTemplate (tmpl : List Char) : Except Err (List Node) :=
  match parseLines (splitNl tmpl) 1 ⟨[], []⟩ with
  | .error e => .error e
  | .ok st => if st.stack.isEmpty then .ok st.root else .error ⟨none, .unclosedEOF⟩

/-- `RenderSQLTemplate` (`src/typed/query.go` lines 498-694): Go returns
`(generated code, nil)` on success and `("", err)` on failure; we mirror
the pair shape with an `Option Err` second component. -/
def RenderSQLTemplate (tmpl : List Char) : List Char × Option Err :=
  match parseTemplate tmpl with
  | .error e => ([], some e)
  | .ok root => (emitProgram root, none)

/-- A fixed outcome of the opaque control decisions of one generated
procedure run: `leaf` for a text node (no decisions), `wrap inner` for the
body of a `where`/`set` block, `loop iters` for a loop (one outcome list
per executed iteration), and `cond pick inner` for a conditional chain
(the generated chain evaluates its conditions in order, so an outcome is
the index `pick` of the first true condition — `pick ≥` number of branches
meaning all were false and the else part, if emitted, runs — together with
the outcomes of the executed body). -/
inductive Out where
  | leaf
  | wrap (inner : List Out)
  | loop (iters : List (List Out))
  | cond (pick : Nat) (inner : List Out)

/-- The runtime state of one generated procedure: the output buffer under
construction and the parameter list.  A parameter is recorded by the bind
expression whose runtime value the generated `params = append(params, ...)`
statement appends. -/
structure RState where
  buf : List Char
  params : List Bind
  deriving Repr, DecidableEq

/-- Runtime effect of the code emitted by `TextNode.Emit`
(`src/typed/query.go` lines 392-395): for a literal whose trim is nonempty,
`fmt.Fprint(&target, <replaced>, " ")` writes the extracted literal and a
space to the buffer, and the params statement appends the bind expressions
in extraction order; a whitespace-only literal emits no code at all. -/
def renderText (s : List Char) (st : RState) : RState :=
  let str := trimS s
  if str = [] then st
  else
    let r := extractText str
    ⟨st.buf ++ r.1 ++ [' '], st.params ++ r.2⟩

/-- `strings.TrimRight(c, ",")`: drop every trailing comma. -/
def dropTrailingCommas (c : List Char) : List Char :=
  (c.reverse.dropWhile (· = ',')).reverse

/-- Runtime effect of the wrapper epilogue emitted by `FuncNode.Emit`
(`src/typed/query.go` lines 412-433) on the trimmed body content `c` and
the enclosing buffer: for `where`, the generated statements are
`fmt.Fprint(&target, "WHERE ")`, then the one-token suffix trim
(`EqualFold` on the last 3/2 bytes against "AND"/"OR", then `TrimSpace`),
then `fmt.Fprint(&target, "WHERE ")` again and `fmt.Fprint(&target, c, " ")`;
for `set`, the all-trailing-comma trim under a `HasSuffix` test, then
`fmt.Fprint(&target, "SET ")` and `fmt.Fprint(&target, c, " ")`.  Any other
name makes the Go code panic and is unreachable on parser output (modelled
as writing nothing). -/
def wrapContent (name c : List Char) : List Char :=
  if name = "where".toList then
    let c1 :=
      if 3 ≤ c.length ∧ (c.drop (c.length - 3)).map lowerC = "and".toList then
        trimS (c.take (c.length - 3))
      else if 2 ≤ c.length ∧ (c.drop (c.length - 2)).map lowerC = "or".toList then
        trimS (c.take (c.length - 2))
      else c
    "WHERE ".toList ++ "WHERE ".toList ++ c1 ++ [' ']
  else if name = "set".toList then
    let c1 :=
      if c.getLast? = some ',' then trimS (dropTrailingCommas c) else c
    "SET ".toList ++ c1 ++ [' ']
  else []

mutual

/-- Runtime behaviour of the code emitted for one node, for a fixed outcome
of its control decisions; mirrors statement-by-statement the code each
`Emit` method prints (see `renderText` and `wrapContent` for the text and
wrapper cases).  A mismatched outcome shape executes nothing. -/
def renderOne : Node → Out → RState → RState
  | .text s, _, st => renderText s st
  | .func name body, .wrap inner, st =>
      -- FuncNode.Emit lines 407-413: the body renders into a fresh local
      -- builder `tmp` while params go to the shared list; then
      -- `c := strings.TrimSpace(tmp.String())` and, when `c` is nonempty,
      -- the wrapper text is appended to the enclosing buffer
      let tmp := renderMany body inner ⟨[], st.params⟩
      let c := trimS tmp.buf
      if c = [] then ⟨st.buf, tmp.params⟩
      else ⟨st.buf ++ wrapContent name c, tmp.params⟩
  | .forN _ body, .loop iters, st =>
      -- ForNode.Emit: the generated loop runs its body once per iteration,
      -- against the same buffer and parameter list
      renderIters body iters st
  | .ifN brs els, .cond pick inner, st =>
      -- IfNode.Emit: the chain runs the picked branch's body; when every
      -- condition is false the else body runs (it is absent from the
      -- generated code exactly when `els` is empty, and rendering the
      -- empty list is a no-op, so one equation covers both)
      match brs.get? pick with
      | some br => renderMany br.2 inner st
      | none => renderMany els inner st
  | .func _ _, _, st => st
  | .forN _ _, _, st => st
  | .ifN _ _, _, st => st

/-- Runtime behaviour of a node list: each node runs in order against the
shared state, consuming its own outcome. -/
def renderMany : List Node → List Out → RState → RState
  | [], _, st => st
  | _ :: _, [], st => st
  | nd :: nds, o :: os, st => renderMany nds os (renderOne nd o st)

/-- Runtime behaviour of a loop body over its iteration outcomes. -/
def renderIters : List Node → List (List Out) → RState → RState
  | _, [], st => st
  | body, it :: its, st => renderIters body its (renderMany body it st)

end

mutual

/-- Modelled from the spec: the sequence of bind expressions in the
left-to-right, depth-first order in which the corresponding placeholder
occurrences appear in the template source, for a fixed outcome of the
branch conditions and loop iteration counts ("Parameter-order invariant",
spec section 8).  This definition follows the spec's words and is compared
with the runtime parameter list of `renderOne`/`renderMany`. -/
def dfsBindsOne : Node → Out → List Bind
  | .text s, _ => (extractText (trimS s)).2
  | .func _ body, .wrap inner => dfsBindsMany body inner
  | .forN _ body, .loop iters => dfsBindsIters body iters
  | .ifN brs els, .cond pick inner =>
      match brs.get? pick with
      | some br => dfsBindsMany br.2 inner
      | none => dfsBindsMany els inner
  | .func _ _, _ => []
  | .forN _ _, _ => []
  | .ifN _ _, _ => []

/-- Depth-first bind collection over a node list (spec side). -/
def dfsBindsMany : List Node → List Out → List Bind
  | [], _ => []
  | _ :: _, [] => []
  | nd :: nds, o :: os => dfsBindsOne nd o ++ dfsBindsMany nds os

/-- Depth-first bind collection over loop iterations (spec side). -/
def dfsBindsIters : List Node → List (List Out) → List Bind
  | _, [] => []
  | body, it :: its => dfsBindsMany body it ++ dfsBindsIters body its

end

/-- A runtime value, for evaluating bind expressions at a call site:
`table` is the current-table sentinel (`clause.CurrentTable`), `vint` an
integer argument, `vexpr v` the `gorm.Expr("?", ...)` wrapper around a
value, and `vfree s` an unconstrained expression. -/
inductive Val where
  | table
  | vint (n : Int)
  | vexpr (v : Val)
  | vfree (s : List Char)
  deriving Repr, DecidableEq

/-- Evaluate one bind expression in an environment assigning values to the
opaque Go expressions (`TextNode.Emit` lines 376-382: `@@table` appends the
sentinel, `@@x` appends `gorm.Expr("?", x)`, `@x` appends `x`). -/
def evalBind (env : List Char → Val) : Bind → Val
  | .table => .table
  | .expr s => .vexpr (env s)
  | .val s => env s

/-- The call-site environment of Scenario A: the method argument `id` bound
to the integer 7. -/
def envId7 : List Char → Val :=
  fun s => if s = "id".toList then .vint 7 else .vfree s

/-- Parse a template and run the generated procedure (buffer starting
empty, parameter list starting empty) under the given outcome; `none` when
compilation fails. -/
def renderTemplate (tmpl : List Char) (os : List Out) : Option RState :=
  match parseTemplate tmpl with
  | .error _ => none
  | .ok root => some (renderMany root os ⟨[], []⟩)

/-- Is an `Except` result an error (Go: the returned `err != nil`)? -/
def isErrE (r : Except ErrKind PState) : Bool :=
  match r with
  | .error _ => true
  | .ok _ => false

/-- The directive grammar accepted by `handleDirective`'s dispatch: the bare
keywords `where`, `set`, `else`, `end`, and the prefixed forms
`for <expr>`, `if <cond>`, `else if <cond>` (spec section 6). -/
def isKnownDirective (dir : List Char) : Bool :=
  (dir == "where".toList) || (dir == "set".toList) ||
  "for ".toList.isPrefixOf dir || "if ".toList.isPrefixOf dir ||
  "else if ".toList.isPrefixOf dir ||
  (dir == "else".toList) || (dir == "end".toList)

/-- Is the innermost open block a conditional frame? -/
def topOpenIf (st : PState) : Bool :=
  match st.stack with
  | .fif _ _ _ _ _ :: _ => true
  | _ => false

/-- Has the innermost open block (when it is a conditional) already seen
its `else`? -/
def topElseSeen (st : PState) : Bool :=
  match st.stack with
  | .fif _ _ _ es _ :: _ => es
  | _ => false

/-- A malformed `else`/`else if`: the directive is of the else family and
the innermost open block is not a conditional (or no block is open), or
that conditional has already seen its `else`. -/
def elseMisuse (dir : List Char) (st : PState) : Bool :=
  ((dir == "else".toList) || "else if ".toList.isPrefixOf dir) &&
  (!topOpenIf st || topElseSeen st)

/-- A malformed `end`: no block is open. -/
def endMisuse (dir : List Char) (st : PState) : Bool :=
  (dir == "end".toList) && st.stack.isEmpty

mutual

/-- Well-formedness of a node as the parser produces it: every wrapper
block is named `where` or `set` (the only names `handleDirective` ever
constructs, line 613-615; any other name makes `FuncNode.Emit` panic). -/
def wfNode : Node → Bool
  | .text _ => true
  | .func name body => ((name == "where".toList) || (name == "set".toList)) && wfNodes body
  | .forN _ body => wfNodes body
  | .ifN brs els => wfBranches brs && wfNodes els

/-- Well-formedness of a node list. -/
def wfNodes : List Node → Bool
  | [] => true
  | n :: ns => wfNode n && wfNodes ns

/-- Well-formedness of a branch list. -/
def wfBranches : List (List Char × List Node) → Bool
  | [] => true
  | (_, b) :: rest => wfNodes b && wfBranches rest

end

/-- Input family for the empty-else property: an `if` block whose
else-section holds only the text `ws`.  Appends are written right-nested
so the scan steps below are definitional. -/
def tmplIfElseEmpty (cond body ws : List Char) : List Char :=
  "\x7b\x7bif ".toList ++ (cond ++ ("\x7d\x7d".toList ++ (body ++
    ("\x7b\x7belse\x7d\x7d".toList ++ (ws ++ "\x7b\x7bend\x7d\x7d".toList)))))

/-- The same template with the whole else-section removed. -/
def tmplIfNoElse (cond body : List Char) : List Char :=
  "\x7b\x7bif ".toList ++ (cond ++ ("\x7d\x7d".toList ++ (body ++
    "\x7b\x7bend\x7d\x7d".toList)))

end GenTpl

namespace GenTpl

/-- C1: for a `{{where}}` block whose rendered body is the nonempty text
`id=? AND` (ending in a trailing AND token), the generated wrapper removes
the one trailing conjunction token but writes the literal prefix `WHERE `
TWICE and appends a trailing space, so the enclosing buffer receives
`WHERE WHERE id=? ` — not a single `WHERE ` prefix followed by the trimmed
body and nothing else, as the claim states.  This evaluates the runtime
model of `FuncNode.Emit`'s generated code at the failing input. -/
theorem c1_where_prefix_doubled :
    renderOne (.func "where".toList [.text "id=@id AND".toList]) (.wrap [.leaf]) ⟨[], []⟩ =
      ⟨"WHERE WHERE id=? ".toList, [.val "id".toList]⟩ := by
  decide

/-- C4 counterexample: the compiled procedure for
`SELECT * FROM @@table WHERE id=@id` does not produce exactly the SQL text
`SELECT * FROM ? WHERE id=?` — the generated `fmt.Fprint(&sb, lit, " ")`
appends a trailing space. -/
theorem c4_counterexample :
    (renderTemplate "SELECT * FROM @@table WHERE id=@id".toList [.leaf]).map RState.buf ≠
      some "SELECT * FROM ? WHERE id=?".toList := by
  decide

/-- C4 (amended): the template `SELECT * FROM @@table WHERE id=@id`
compiles successfully, and the compiled procedure produces the SQL text
`SELECT * FROM ? WHERE id=? ` (one trailing space) and the parameter list
`[clause.CurrentTable, id]`, which under `id = 7` evaluates to the
current-table sentinel followed by 7, in that order. -/
theorem c4_amended :
    (RenderSQLTemplate "SELECT * FROM @@table WHERE id=@id".toList).2 = none ∧
    renderTemplate "SELECT * FROM @@table WHERE id=@id".toList [.leaf] =
      some ⟨"SELECT * FROM ? WHERE id=? ".toList, [.table, .val "id".toList]⟩ ∧
    (renderTemplate "SELECT * FROM @@table WHERE id=@id".toList [.leaf]).map
        (fun r => r.params.map (evalBind envId7)) = some [.table, .vint 7] := by
  refine ⟨by decide, by decide, by decide⟩

/-- C5 counterexample: the template consisting of a lone `{{` fails with
the missing-`}}` (unterminated directive) error, a failure mode absent
from the claim's enumerated list (the input contains no else/end
misplacement, no open block, and no unrecognized directive keyword). -/
theorem c5_counterexample :
    RenderSQLTemplate "\x7b\x7b".toList = ([], some ⟨some 1, .missingClose⟩) := by
  decide

/-- C6 counterexample: on the template `{{where}}` compilation fails with
the unclosed-block-at-end-of-input error, and the returned error carries no
line number (the Go code returns `errors.New("unclosed block(s) at EOF")`
without the `line %d` wrapper), contradicting the claim that every error in
the taxonomy carries the offending line number. -/
theorem c6_counterexample :
    RenderSQLTemplate "\x7b\x7bwhere\x7d\x7d".toList = ([], some ⟨none, .unclosedEOF⟩) := by
  decide

/-- C7 counterexample: extraction is not idempotent.  Extracting the
literal `\@x` yields the literal `@x` with no binds; applying the
extraction pass to that output again is not a no-op (the restored escaped
sigil is re-extracted as a placeholder). -/
theorem c7_counterexample :
    extractText ((extractText "\\@x".toList).1) ≠ ((extractText "\\@x".toList).1, []) := by
  decide

/-- C8 counterexample: in the literal `@\@x` the backslash-escaped sigil
does not survive extraction as a literal sigil character, and a bind is
produced covering it: the escape marker `___ESCAPED_AT___` is made of
identifier characters, so the preceding sigil matches the single-sigil
placeholder alternative and swallows it, giving output `?` with the single
bind `___ESCAPED_AT___x`. -/
theorem c8_counterexample :
    extractText "@\\@x".toList = ("?".toList, [.val (escTok ++ ['x'])]) := by
  decide

/-- C10: a bare `if`, `for` or `else if` directive (no space-separated
trailing expression) is rejected by the dispatch of `handleDirective` as an
unknown directive in every parser state, never parsed as an opener with an
empty header; `where` and `set` are accepted as bare keywords in every
state, and `else`/`end` are recognized keywords (their failures are the
structural else/end errors, never the unknown-directive error); end-to-end,
such a directive aborts compilation with the unknown-directive error
carrying its 1-based line number. -/
theorem c10_bare_keywords :
    (∀ st : PState, handleDirective "if".toList st = .error (.unknownDirective "if".toList)) ∧
    (∀ st : PState, handleDirective "for".toList st = .error (.unknownDirective "for".toList)) ∧
    (∀ st : PState,
      handleDirective "else if".toList st = .error (.unknownDirective "else if".toList)) ∧
    (∀ st : PState, isErrE (handleDirective "where".toList st) = false) ∧
    (∀ st : PState, isErrE (handleDirective "set".toList st) = false) ∧
    (∀ (st : PState) (e : ErrKind), handleDirective "else".toList st = .error e →
      ∀ d, e ≠ .unknownDirective d) ∧
    (∀ (st : PState) (e : ErrKind), handleDirective "end".toList st = .error e →
      ∀ d, e ≠ .unknownDirective d) ∧
    RenderSQLTemplate "\n\x7b\x7bif\x7d\x7d".toList =
      ([], some ⟨some 2, .unknownDirective "if".toList⟩) ∧
    RenderSQLTemplate "\x7b\x7bfor\x7d\x7d".toList =
      ([], some ⟨some 1, .unknownDirective "for".toList⟩) ∧
    RenderSQLTemplate "\x7b\x7belse if\x7d\x7d".toList =
      ([], some ⟨some 1, .unknownDirective "else if".toList⟩) := by
  refine ⟨fun st => rfl, fun st => rfl, fun st => rfl, fun st => rfl, fun st => rfl,
    ?_, ?_, by decide, by decide, by decide⟩
  · intro st e h d
    unfold handleDirective handleElse at h
    simp only [show ("else".toList = "where".toList) = False by simp,
      show ("else".toList = "set".toList) = False by simp] at h
    rcases st with ⟨root, stack⟩
    rcases stack with _ | ⟨top, rest⟩
    · simp at h
      rcases h with rfl
      simp
    · rcases top with _ | _ | ⟨cl, c, b, es, eb⟩ <;> simp at h
      · rcases h with rfl
        simp
      · rcases h with rfl
        simp
      · rcases es with _ | _ <;> simp at h
        · rcases h with rfl
          simp
  · intro st e h d
    unfold handleDirective handleEnd at h
    rcases st with ⟨root, stack⟩
    rcases stack with _ | ⟨top, rest⟩ <;> simp at h
    · rcases h with rfl
      simp

/-- C10 witness: instantiating the bare-keyword theorem at the empty parser
state shows the error raised for a bare `else` is the structural
else-without-if error, not the unknown-directive error. -/
theorem c10_bare_keywords_witness :
    ErrKind.elseNoOpen ≠ ErrKind.unknownDirective "else".toList :=
  c10_bare_keywords.2.2.2.2.2.1 ⟨[], []⟩ .elseNoOpen rfl "else".toList

/-- Dropping while a predicate holds never leaves a satisfying head. -/
theorem dropWhile_head_false {p : Char → Bool} {l : List Char} {c : Char} {t : List Char}
    (h : l.dropWhile p = c :: t) : p c = false := by
  induction l with
  | nil => simp [List.dropWhile] at h
  | cons x xs ih =>
      by_cases hx : p x
      · simp [List.dropWhile, hx] at h
        exact ih h
      · simp [List.dropWhile, hx] at h
        rcases h with ⟨rfl, rfl⟩
        simpa using hx

/-- A trimmed string is empty exactly when the string is all whitespace. -/
theorem trimS_eq_nil_iff {s : List Char} : trimS s = [] ↔ ∀ c ∈ s, isSpaceC c := by
  simp only [trimS, List.reverse_eq_nil_iff, List.dropWhile_eq_nil_iff, List.mem_reverse]
  constructor
  · intro h c hc
    by_cases hcs : isSpaceC c
    · exact hcs
    · have hsplit := List.takeWhile_append_dropWhile (p := isSpaceC) (l := s)
      rw [← hsplit] at hc
      rcases List.mem_append.mp hc with htk | hdr
      · exact absurd (List.mem_takeWhile_imp htk) (by simpa using hcs)
      · exact absurd (h c hdr) (by simpa using hcs)
  · intro h c hc
    exact h c ((List.dropWhile_sublist (p := isSpaceC) (l := s)).subset hc)

/-- A nonempty trim result contains a non-whitespace character. -/
theorem trim_mem_nonspace {s : List Char} (h : trimS s ≠ []) :
    ∃ c ∈ trimS s, isSpaceC c = false := by
  rcases hd : (s.dropWhile isSpaceC).reverse.dropWhile isSpaceC with _ | ⟨c, t⟩
  · exact absurd (by simp [trimS, hd]) h
  · exact ⟨c, by simp [trimS, hd], dropWhile_head_false hd⟩

/-- Concatenation trims to empty exactly when both halves do. -/
theorem trimS_append_eq_nil_iff {a b : List Char} :
    trimS (a ++ b) = [] ↔ trimS a = [] ∧ trimS b = [] := by
  simp only [trimS_eq_nil_iff, List.mem_append]
  constructor
  · exact fun h => ⟨fun c hc => h c (Or.inl hc), fun c hc => h c (Or.inr hc)⟩
  · rintro ⟨h1, h2⟩ c (hc | hc)
    · exact h1 c hc
    · exact h2 c hc

/-- A found occurrence fits inside the string. -/
theorem findSub_le {s pat : List Char} {i : Nat} (h : findSub s pat = some i) :
    i + pat.length ≤ s.length := by
  induction s generalizing i with
  | nil =>
      unfold findSub at h
      by_cases hp : pat = [] <;> simp [hp] at h ⊢
      omega
  | cons c rest ih =>
      unfold findSub at h
      by_cases hp : pat.isPrefixOf (c :: rest)
      · simp only [hp, if_pos, Option.some.injEq] at h
        subst h
        have hle := (List.isPrefixOf_iff_prefix.mp hp).length_le
        simpa using hle
      · simp only [hp, if_neg, Bool.false_eq_true, not_false_eq_true, Option.map_eq_some'] at h
        rcases h with ⟨j, hj, rfl⟩
        have := ih hj
        simp only [List.length_cons]
        omega

/-- No occurrence of a doubled character in a string free of it. -/
theorem findSub_doubled_none {a : List Char} {p : Char} (h : ∀ c ∈ a, c ≠ p) :
    findSub a [p, p] = none := by
  induction a with
  | nil => simp [findSub]
  | cons c rest ih =>
      have hc : c ≠ p := h c (by simp)
      unfold findSub
      have hpre : ([p, p].isPrefixOf (c :: rest)) = false := by
        simp [List.isPrefixOf]
        intro hcp
        exact absurd hcp.symm hc
      simp [hpre, ih (fun x hx => h x (by simp [hx]))]

/-- First occurrence of a doubled character placed after a prefix free of
that character. -/
theorem findSub_doubled_append {a r : List Char} {p : Char} (h : ∀ c ∈ a, c ≠ p) :
    findSub (a ++ p :: p :: r) [p, p] = some a.length := by
  induction a with
  | nil => simp [findSub, List.isPrefixOf]
  | cons c rest ih =>
      have hc : c ≠ p := h c (by simp)
      have hpre : ([p, p].isPrefixOf (c :: (rest ++ p :: p :: r))) = false := by
        simp [List.isPrefixOf]
        intro hcp
        exact absurd hcp.symm hc
      unfold findSub
      simp only [List.cons_append, hpre]
      simp [ih (fun x hx => h x (by simp [hx]))]

/-- Splitting on newlines of a newline-free string is that single line. -/
theorem splitNl_no_newline {s : List Char} (h : ∀ c ∈ s, c ≠ '\n') : splitNl s = [s] := by
  induction s with
  | nil => rfl
  | cons c rest ih =>
      have hc : c ≠ '\n' := h c (by simp)
      unfold splitNl
      simp [hc, ih (fun x hx => h x (by simp [hx]))]

/-- `scanPHGo` on the empty string, for any fuel. -/
theorem scanPHGo_nil (n : Nat) : scanPHGo n [] = ([], []) := by
  cases n <;> rfl

/-- One scan step over a non-sigil character, with the exact fuel the
wrapper supplies. -/
theorem scanPH_cons_ne {c : Char} {rest : List Char} (h : c ≠ '@') :
    scanPH (c :: rest) = (c :: (scanPH rest).1, (scanPH rest).2) := by
  unfold scanPH
  rw [show (c :: rest).length = rest.length + 1 by simp]
  rw [scanPHGo.eq_6]
  · intro r hc
    exact absurd hc h
  · intro r hc
    exact absurd hc h
  · intro hc
    exact absurd hc h

/-- The scanner is the identity, with no binds, on sigil-free strings. -/
theorem scanPH_noop {t : List Char} (h : ∀ c ∈ t, c ≠ '@') : scanPH t = (t, []) := by
  induction t with
  | nil => rfl
  | cons c rest ih =>
      rw [scanPH_cons_ne (h c (by simp)), ih (fun x hx => h x (by simp [hx]))]

/-- The scanner passes over a sigil-free prefix unchanged and continues on
the remainder. -/
theorem scanPH_skip {a t : List Char} (h : ∀ c ∈ a, c ≠ '@') :
    scanPH (a ++ t) = (a ++ (scanPH t).1, (scanPH t).2) := by
  induction a with
  | nil => simp
  | cons c a2 ih =>
      rw [List.cons_append, scanPH_cons_ne (h c (by simp)),
        ih (fun x hx => h x (by simp [hx]))]
      simp

/-- A single-sigil placeholder ending the string: the nonempty identifier
run is consumed, one `?` marker is produced and one `val` bind recorded. -/
theorem scanPH_val_end {w : List Char} (hne : w ≠ []) (hw : ∀ c ∈ w, isWordC c) :
    scanPH ('@' :: w) = (['?'], [.val w]) := by
  have htake : w.takeWhile isWordC = w := List.takeWhile_eq_self_iff.mpr hw
  have hdrop : w.dropWhile isWordC = [] := List.dropWhile_eq_nil_iff.mpr hw
  have hhead : ∀ r, w ≠ '@' :: r := by
    intro r hr
    have : isWordC '@' := hw '@' (by simp [hr])
    simp [isWordC] at this
  unfold scanPH
  rw [show ('@' :: w).length = w.length + 1 by simp]
  rw [scanPHGo.eq_5]
  · rw [htake, hdrop, if_neg hne, scanPHGo_nil]
  · intro r hr
    exact hhead _ hr
  · intro r hr
    exact hhead _ hr

/-- The escape pre-substitution is the identity on sigil-free strings (its
pattern contains a sigil). -/
theorem replEsc_noop {t : List Char} (h : ∀ c ∈ t, c ≠ '@') : replEsc t = t := by
  induction t with
  | nil => rfl
  | cons c rest ih =>
      rw [replEsc.eq_3]
      · rw [ih (fun x hx => h x (by simp [hx]))]
      · intro r hc hr
        exact h '@' (by simp [hr]) rfl

/-- The escape pre-substitution passes over a backslash-free prefix. -/
theorem replEsc_skip {a t : List Char} (h : ∀ c ∈ a, c ≠ '\\') :
    replEsc (a ++ t) = a ++ replEsc t := by
  induction a with
  | nil => rfl
  | cons c a2 ih =>
      rw [List.cons_append, replEsc.eq_3]
      · rw [ih (fun x hx => h x (by simp [hx]))]
        simp
      · intro r hc
        exact absurd hc (h c (by simp))

/-- `restoreEscGo` on the empty string, for any fuel. -/
theorem restoreEscGo_nil (n : Nat) : restoreEscGo n [] = [] := by
  cases n <;> rfl

/-- Fuel irrelevance for `restoreEscGo`: any fuel at least the input length
gives the same result. -/
theorem restoreEscGo_irrel {n : Nat} : ∀ {m : Nat} {s : List Char},
    s.length ≤ n → s.length ≤ m → restoreEscGo n s = restoreEscGo m s := by
  induction n with
  | zero =>
      intro m s hn hm
      have : s = [] := List.length_eq_zero.mp (Nat.le_zero.mp hn)
      subst this
      rw [restoreEscGo_nil, restoreEscGo_nil]
  | succ n ih =>
      intro m s hn hm
      rcases s with _ | ⟨c, rest⟩
      · rw [restoreEscGo_nil, restoreEscGo_nil]
      · rcases m with _ | m
        · simp at hm
        · rw [restoreEscGo, restoreEscGo]
          by_cases hp : escTok.isPrefixOf (c :: rest)
          · rw [if_pos hp, if_pos hp]
            have h1 : (rest.drop 15).length ≤ n := by
              have := List.length_drop 15 rest
              simp at hn
              omega
            have h2 : (rest.drop 15).length ≤ m := by
              have := List.length_drop 15 rest
              simp at hm
              omega
            rw [ih h1 h2]
          · rw [if_neg hp, if_neg hp]
            have h1 : rest.length ≤ n := by
              simp at hn
              omega
            have h2 : rest.length ≤ m := by
              simp at hm
              omega
            rw [ih h1 h2]

/-- One restore step over a character not beginning the escape marker. -/
theorem restoreEsc_cons {c : Char} {rest : List Char}
    (h : escTok.isPrefixOf (c :: rest) = false) :
    restoreEsc (c :: rest) = c :: restoreEsc rest := by
  unfold restoreEsc
  rw [show (c :: rest).length = rest.length + 1 by simp]
  rw [restoreEscGo, if_neg (by simp [h])]

/-- A restore step at an occurrence of the escape marker. -/
theorem restoreEsc_marker {t : List Char} :
    restoreEsc (escTok ++ t) = '@' :: restoreEsc t := by
  unfold restoreEsc
  have hp : escTok.isPrefixOf (escTok ++ t) := by
    exact List.isPrefixOf_iff_prefix.mpr ⟨t, rfl⟩
  have hshape : escTok ++ t =
      '_' :: (['_', '_', 'E', 'S', 'C', 'A', 'P', 'E', 'D', '_', 'A', 'T', '_', '_', '_'] ++ t) := by
    rfl
  rw [show (escTok ++ t).length = ((['_', '_', 'E', 'S', 'C', 'A', 'P', 'E', 'D', '_', 'A', 'T', '_', '_', '_'] ++ t).length) + 1 by simp [escTok]]
  rw [hshape, restoreEscGo, if_pos (by rw [← hshape]; exact hp)]
  have hdrop : (['_', '_', 'E', 'S', 'C', 'A', 'P', 'E', 'D', '_', 'A', 'T', '_', '_', '_'] ++ t).drop 15 = t := by
    rfl
  rw [hdrop]
  congr 1
  exact restoreEscGo_irrel (by simp; omega) (by omega)

/-- Restoration is the identity when the marker does not occur. -/
theorem restoreEsc_noop {s : List Char} (h : findSub s escTok = none) : restoreEsc s = s := by
  induction s with
  | nil => rfl
  | cons c rest ih =>
      rw [show findSub (c :: rest) escTok =
          (if escTok.isPrefixOf (c :: rest) then some 0
           else (findSub rest escTok).map (· + 1)) from rfl] at h
      by_cases hp : escTok.isPrefixOf (c :: rest)
      · simp [hp] at h
      · simp only [hp, Bool.false_eq_true, if_false, Option.map_eq_none'] at h
        rw [restoreEsc_cons (by simp [hp]), ih h]

/-- No occurrence of a pattern in a string free of the pattern's first
character. -/
theorem findSub_head_ne {x pat : List Char} {p : Char} (hpat : pat.head? = some p)
    (h : ∀ c ∈ x, c ≠ p) : findSub x pat = none := by
  induction x with
  | nil =>
      rcases pat with _ | ⟨q, pat'⟩
      · simp at hpat
      · rfl
  | cons c rest ih =>
      rcases pat with _ | ⟨q, pat'⟩
      · simp at hpat
      · simp at hpat
        subst hpat
        unfold findSub
        have hpre : ((q :: pat').isPrefixOf (c :: rest)) = false := by
          simp [List.isPrefixOf]
          intro hcp
          exact absurd hcp.symm (h c (by simp))
        simp [hpre, ih (fun x hx => h x (by simp [hx]))]

/-- Restoration passes over an underscore-free prefix. -/
theorem restoreEsc_skip {a t : List Char} (h : ∀ c ∈ a, c ≠ '_') :
    restoreEsc (a ++ t) = a ++ restoreEsc t := by
  induction a with
  | nil => rfl
  | cons c a2 ih =>
      have hpre : (escTok.isPrefixOf (c :: (a2 ++ t))) = false := by
        simp [escTok, List.isPrefixOf]
        intro hcp
        exact absurd hcp.symm (h c (by simp))
      rw [List.cons_append, restoreEsc_cons hpre, ih (fun x hx => h x (by simp [hx]))]
      simp

/-- Quote escaping is the identity on quote-free strings. -/
theorem escQuote_noop {t : List Char} (h : ∀ c ∈ t, c ≠ '"') : escQuote t = t := by
  induction t with
  | nil => rfl
  | cons c rest ih =>
      rw [escQuote.eq_3]
      · rw [ih (fun x hx => h x (by simp [hx]))]
      · intro hc
        exact absurd hc (h c (by simp))

/-- C7 (amended): extraction is idempotent on literals containing no sigil,
no quote, and no occurrence of the internal escape-marker text: on such a
literal the pass changes nothing and produces no binds.  (The
counterexample shows all three conditions are needed in general: restored
escaped sigils are re-extracted and quotes are re-escaped.) -/
theorem c7_amended (t : List Char) (h1 : ∀ c ∈ t, c ≠ '@') (h2 : ∀ c ∈ t, c ≠ '"')
    (h3 : containsSub t escTok = false) : extractText t = (t, []) := by
  have hfind : findSub t escTok = none := by
    rcases hf : findSub t escTok with _ | v
    · rfl
    · rw [containsSub, hf] at h3
      simp at h3
  show (escQuote (restoreEsc (scanPH (replEsc t)).1), (scanPH (replEsc t)).2) = (t, [])
  rw [replEsc_noop h1, scanPH_noop h1]
  simp only
  rw [restoreEsc_noop hfind, escQuote_noop h2]

/-- C7 witness: the amended idempotence theorem applied to the typical
extracted literal `a=? AND b=?`. -/
theorem c7_amended_witness :
    extractText "a=? AND b=?".toList = ("a=? AND b=?".toList, []) :=
  c7_amended ("a=? AND b=?".toList) (by decide) (by decide) (by decide)

/-- C8 (amended): for every literal of the form
`a ++ "\@" ++ b ++ "@" ++ w` where `a` and `b` are free of sigil,
backslash, quote and underscore characters and `w` is a nonempty
identifier run without underscores, the backslash-escaped sigil survives
extraction as a literal sigil with no bind produced for it, and the
placeholder `@w` elsewhere in the span is still extracted normally:
the output literal is `a ++ "@" ++ b ++ "?"` with the single bind `w`. -/
theorem c8_amended (a b w : List Char)
    (ha : ∀ c ∈ a, c ≠ '@' ∧ c ≠ '\\' ∧ c ≠ '"' ∧ c ≠ '_')
    (hb : ∀ c ∈ b, c ≠ '@' ∧ c ≠ '\\' ∧ c ≠ '"' ∧ c ≠ '_')
    (hw : w ≠ []) (hw2 : ∀ c ∈ w, isWordC c ∧ c ≠ '_') :
    extractText (a ++ '\\' :: '@' :: (b ++ '@' :: w)) =
      (a ++ '@' :: (b ++ ['?']), [.val w]) := by
  have hwword : ∀ c ∈ w, isWordC c := fun c hc => (hw2 c hc).1
  have hwna : ∀ c ∈ w, c ≠ '@' := by
    intro c hc heq
    subst heq
    have := hwword _ hc
    simp [isWordC] at this
  have hwnb : ∀ c ∈ w, c ≠ '\\' := by
    intro c hc heq
    subst heq
    have := hwword _ hc
    simp [isWordC] at this
  have hesc_na : ∀ c ∈ escTok, c ≠ '@' := by decide
  show (escQuote (restoreEsc (scanPH (replEsc _)).1), (scanPH (replEsc _)).2) = _
  rw [replEsc_skip (fun c hc => (ha c hc).2.1)]
  rw [replEsc.eq_2]
  rw [replEsc_skip (fun c hc => (hb c hc).2.1)]
  rw [replEsc.eq_3 '@' w (by intro r hc; exact absurd hc (by decide))]
  rw [replEsc_noop hwna]
  have hre : a ++ (escTok ++ (b ++ '@' :: w)) = (a ++ escTok ++ b) ++ ('@' :: w) := by
    simp [List.append_assoc]
  rw [hre]
  have hP : ∀ c ∈ a ++ escTok ++ b, c ≠ '@' := by
    intro c hc
    rcases List.mem_append.mp hc with hc1 | hcb
    · rcases List.mem_append.mp hc1 with hca | hce
      · exact (ha c hca).1
      · exact hesc_na c hce
    · exact (hb c hcb).1
  rw [scanPH_skip hP, scanPH_val_end hw hwword]
  simp only
  have hre2 : a ++ escTok ++ b ++ ['?'] = a ++ (escTok ++ (b ++ ['?'])) := by
    simp [List.append_assoc]
  rw [hre2]
  rw [restoreEsc_skip (fun c hc => (ha c hc).2.2.2)]
  rw [restoreEsc_marker]
  rw [restoreEsc_noop (@findSub_head_ne (b ++ ['?']) escTok '_' (by decide) ?hbq)]
  case hbq =>
    intro c hc
    rcases List.mem_append.mp hc with hcb | hcq
    · exact (hb c hcb).2.2.2
    · simp at hcq
      subst hcq
      decide
  rw [escQuote_noop ?hqq]
  case hqq =>
    intro c hc
    rcases List.mem_append.mp hc with hca | hcr
    · exact (ha c hca).2.2.1
    · simp at hcr
      rcases hcr with rfl | hcb | rfl
      · decide
      · exact (hb c hcb).2.2.1
      · decide

/-- C8 witness: the amended theorem at a concrete span containing one
escaped sigil and one value placeholder. -/
theorem c8_amended_witness :
    extractText ("n=1 AND ".toList ++ '\\' :: '@' :: (" m=2 AND k=".toList ++ '@' :: "id".toList)) =
      ("n=1 AND ".toList ++ '@' :: (" m=2 AND k=".toList ++ ['?']), [.val "id".toList]) :=
  c8_amended ("n=1 AND ".toList) (" m=2 AND k=".toList) ("id".toList)
    (by decide) (by decide) (by decide) (by decide)


/-- C2: the parameter-order invariant.  For every program tree, every fixed
outcome of the branch conditions and loop iteration counts, and every
starting state, the parameters the generated procedure appends at render
time are exactly the bind expressions in the left-to-right, depth-first
source order collected by `dfsBindsMany` (the spec-side definition): the
buffer machinery of the wrappers never reorders, drops or duplicates a
parameter relative to that order. -/
theorem c2_param_order :
    ∀ (ns : List Node) (os : List Out) (st : RState),
      (renderMany ns os st).params = st.params ++ dfsBindsMany ns os := by
  refine renderMany.induct
    (fun nd o st => (renderOne nd o st).params = st.params ++ dfsBindsOne nd o)
    (fun body its st => (renderIters body its st).params = st.params ++ dfsBindsIters body its)
    (fun ns os st => (renderMany ns os st).params = st.params ++ dfsBindsMany ns os)
    ?_ ?_ ?_ ?_ ?_ ?_ ?_ ?_ ?_ ?_ ?_ ?_ ?_ ?_
  · intro t s st
    by_cases h : trimS s = [] <;>
      simp [renderOne, renderText, dfsBindsOne, h, extractText, scanPH, replEsc, scanPHGo_nil]
  · intro name body inner st tmp c hc ih
    rw [show c = trimS (renderMany body inner ⟨[], st.params⟩).buf from rfl] at hc
    simp only [renderOne, dfsBindsOne]
    rw [if_pos hc]
    simpa using ih
  · intro name body inner st tmp c hc ih
    rw [show c = trimS (renderMany body inner ⟨[], st.params⟩).buf from rfl] at hc
    simp only [renderOne, dfsBindsOne]
    rw [if_neg hc]
    simpa using ih
  · intro e body iters st ih
    simpa [renderOne, dfsBindsOne] using ih
  · intro brs els pick inner st br hget ih
    rw [List.get?_eq_getElem?] at hget
    simp [renderOne, dfsBindsOne, hget, ih]
  · intro brs els pick inner st hget ih
    rw [List.get?_eq_getElem?] at hget
    simp [renderOne, dfsBindsOne, hget, ih]
  · intro t name body st hmt
    cases t with
    | leaf => simp [renderOne, dfsBindsOne]
    | wrap inner => exact absurd rfl (hmt inner)
    | loop iters => simp [renderOne, dfsBindsOne]
    | cond p i => simp [renderOne, dfsBindsOne]
  · intro t e body st hmt
    cases t with
    | leaf => simp [renderOne, dfsBindsOne]
    | wrap inner => simp [renderOne, dfsBindsOne]
    | loop iters => exact absurd rfl (hmt iters)
    | cond p i => simp [renderOne, dfsBindsOne]
  · intro t brs els st hmt
    cases t with
    | leaf => simp [renderOne, dfsBindsOne]
    | wrap inner => simp [renderOne, dfsBindsOne]
    | loop iters => simp [renderOne, dfsBindsOne]
    | cond p i => exact absurd rfl (hmt p i)
  · intro t st
    simp [renderMany, dfsBindsMany]
  · intro hd tl st
    simp [renderMany, dfsBindsMany]
  · intro nd nds o os st ih1 ih2
    simp [renderMany, dfsBindsMany, ih1, ih2]
  · intro x st
    simp [renderIters, dfsBindsIters]
  · intro body it its st ih1 ih2
    simp [renderIters, dfsBindsIters, ih1, ih2]

/-- The escape pre-substitution preserves having a non-whitespace
character. -/
theorem replEsc_nonspace : ∀ {s : List Char}, (∃ c ∈ s, isSpaceC c = false) →
    ∃ c ∈ replEsc s, isSpaceC c = false := by
  intro s h
  induction s using replEsc.induct with
  | case1 => simp at h
  | case2 rest ih =>
      refine ⟨'_', ?_, by decide⟩
      rw [replEsc.eq_2]
      simp [escTok]
  | case3 c rest hne ih =>
      rw [replEsc.eq_3 c rest hne]
      rcases h with ⟨x, hx, hxs⟩
      rcases List.mem_cons.mp hx with rfl | hxr
      · exact ⟨x, by simp, hxs⟩
      · rcases ih ⟨x, hxr, hxs⟩ with ⟨y, hy, hys⟩
        exact ⟨y, by simp [hy], hys⟩

/-- The placeholder scan preserves having a non-whitespace character in its
rewritten literal. -/
theorem scanPHGo_nonspace : ∀ (n : Nat) (s : List Char),
    (∃ c ∈ s, isSpaceC c = false) → ∃ c ∈ (scanPHGo n s).1, isSpaceC c = false := by
  intro n s
  induction n, s using scanPHGo.induct with
  | case1 s => exact fun h => h
  | case2 n => intro h; simp at h
  | case3 n rest ih =>
      intro h
      exact ⟨'?', by rw [scanPHGo]; simp, by decide⟩
  | case4 n rest h1 w hcond ih =>
      intro h
      refine ⟨'@', ?_, by decide⟩
      rw [scanPHGo.eq_4 n rest h1]
      rw [if_pos (show List.takeWhile isWordC rest = [] from hcond)]
      simp
  | case5 n rest h1 w hcond ih =>
      intro h
      refine ⟨'?', ?_, by decide⟩
      rw [scanPHGo.eq_4 n rest h1]
      rw [if_neg (show ¬ List.takeWhile isWordC rest = [] from hcond)]
      simp
  | case6 n rest h1 h2 w hcond ih =>
      intro h
      refine ⟨'@', ?_, by decide⟩
      rw [scanPHGo.eq_5 n rest h1 h2]
      rw [if_pos (show List.takeWhile isWordC rest = [] from hcond)]
      simp
  | case7 n rest h1 h2 w hcond ih =>
      intro h
      refine ⟨'?', ?_, by decide⟩
      rw [scanPHGo.eq_5 n rest h1 h2]
      rw [if_neg (show ¬ List.takeWhile isWordC rest = [] from hcond)]
      simp
  | case8 n c rest h1 h2 h3 ih =>
      intro h
      rw [scanPHGo.eq_6 n c rest h1 h2 h3]
      rcases h with ⟨x, hx, hxs⟩
      rcases List.mem_cons.mp hx with rfl | hxr
      · exact ⟨x, by simp, hxs⟩
      · rcases ih ⟨x, hxr, hxs⟩ with ⟨y, hy, hys⟩
        exact ⟨y, by simp [hy], hys⟩

/-- Escape-marker restoration preserves having a non-whitespace
character. -/
theorem restoreEscGo_nonspace : ∀ (n : Nat) (s : List Char),
    (∃ c ∈ s, isSpaceC c = false) → ∃ c ∈ restoreEscGo n s, isSpaceC c = false := by
  intro n s
  induction n, s using restoreEscGo.induct with
  | case1 s => exact fun h => h
  | case2 n => intro h; simp at h
  | case3 n c rest hp ih =>
      intro h
      rw [restoreEscGo, if_pos hp]
      exact ⟨'@', by simp, by decide⟩
  | case4 n c rest hp ih =>
      intro h
      rw [restoreEscGo, if_neg hp]
      rcases h with ⟨x, hx, hxs⟩
      rcases List.mem_cons.mp hx with rfl | hxr
      · exact ⟨x, by simp, hxs⟩
      · rcases ih ⟨x, hxr, hxs⟩ with ⟨y, hy, hys⟩
        exact ⟨y, by simp [hy], hys⟩

/-- Quote escaping preserves having a non-whitespace character. -/
theorem escQuote_nonspace : ∀ {s : List Char}, (∃ c ∈ s, isSpaceC c = false) →
    ∃ c ∈ escQuote s, isSpaceC c = false := by
  intro s h
  induction s using escQuote.induct with
  | case1 => simp at h
  | case2 rest ih =>
      refine ⟨'\\', ?_, by decide⟩
      rw [escQuote.eq_2]
      simp
  | case3 c rest hne ih =>
      rw [escQuote.eq_3 c rest hne]
      rcases h with ⟨x, hx, hxs⟩
      rcases List.mem_cons.mp hx with rfl | hxr
      · exact ⟨x, by simp, hxs⟩
      · rcases ih ⟨x, hxr, hxs⟩ with ⟨y, hy, hys⟩
        exact ⟨y, by simp [hy], hys⟩

/-- The extracted literal of a non-blank span contains a non-whitespace
character (so an executed text statement always contributes visible
text). -/
theorem extract_nonspace {s : List Char} (h : trimS s ≠ []) :
    ∃ c ∈ (extractText (trimS s)).1, isSpaceC c = false := by
  have h0 := trim_mem_nonspace h
  have h1 := replEsc_nonspace h0
  have h2 := scanPHGo_nonspace (replEsc (trimS s)).length _ h1
  have h3 := restoreEscGo_nonspace (scanPHGo (replEsc (trimS s)).length (replEsc (trimS s))).1.length _ h2
  exact escQuote_nonspace h3

/-- Looking up a branch of a well-formed branch list yields a well-formed
body. -/
theorem wfBranches_get {brs : List (List Char × List Node)} {k : Nat}
    {br : List Char × List Node} (hwf : wfBranches brs = true)
    (hget : brs.get? k = some br) : wfNodes br.2 = true := by
  induction brs generalizing k with
  | nil => simp [List.get?] at hget
  | cons hd tl ih =>
      rcases hd with ⟨cond, body⟩
      rw [wfBranches] at hwf
      simp only [Bool.and_eq_true] at hwf
      rcases k with _ | k
      · simp [List.get?] at hget
        rw [← hget]
        exact hwf.1
      · exact ih hwf.2 (by simpa [List.get?] using hget)

/-- Frame property of the runtime model: rendering appends to the buffer
and to the parameter list, and a whitespace-only buffer contribution
forces an empty contribution on both sides (well-formed trees: every
wrapper is named `where` or `set`). -/
theorem render_frame :
    ∀ (ns : List Node) (os : List Out) (st : RState), wfNodes ns = true →
      ∃ ext qs, renderMany ns os st = ⟨st.buf ++ ext, st.params ++ qs⟩ ∧
        (trimS ext = [] → ext = [] ∧ qs = []) := by
  refine renderMany.induct
    (fun nd o st => wfNode nd = true →
      ∃ ext qs, renderOne nd o st = ⟨st.buf ++ ext, st.params ++ qs⟩ ∧
        (trimS ext = [] → ext = [] ∧ qs = []))
    (fun body its st => wfNodes body = true →
      ∃ ext qs, renderIters body its st = ⟨st.buf ++ ext, st.params ++ qs⟩ ∧
        (trimS ext = [] → ext = [] ∧ qs = []))
    (fun ns os st => wfNodes ns = true →
      ∃ ext qs, renderMany ns os st = ⟨st.buf ++ ext, st.params ++ qs⟩ ∧
        (trimS ext = [] → ext = [] ∧ qs = []))
    ?_ ?_ ?_ ?_ ?_ ?_ ?_ ?_ ?_ ?_ ?_ ?_ ?_ ?_
  · intro t s st _
    by_cases h : trimS s = []
    · refine ⟨[], [], ?_, fun _ => ⟨rfl, rfl⟩⟩
      simp [renderOne, renderText, h]
    · refine ⟨(extractText (trimS s)).1 ++ [' '], (extractText (trimS s)).2, ?_, ?_⟩
      · simp [renderOne, renderText, h, extractText]
      · intro htr
        exfalso
        rcases extract_nonspace h with ⟨x, hx, hxs⟩
        have := trimS_eq_nil_iff.mp htr x (by simp [hx])
        rw [this] at hxs
        simp at hxs
  · intro name body inner st tmp c hc ih hwf
    rw [show c = trimS (renderMany body inner ⟨[], st.params⟩).buf from rfl] at hc
    rw [wfNode] at hwf
    simp only [Bool.and_eq_true] at hwf
    rcases ih hwf.2 with ⟨ext1, qs1, heq, hprop⟩
    have hbuf : (renderMany body inner ⟨[], st.params⟩).buf = ext1 := by
      rw [heq]
      simp
    rw [hbuf] at hc
    rcases hprop hc with ⟨rfl, rfl⟩
    refine ⟨[], [], ?_, fun _ => ⟨rfl, rfl⟩⟩
    simp only [renderOne]
    rw [if_pos (by rw [hbuf]; exact hc)]
    rw [heq]
    simp
  · intro name body inner st tmp c hc ih hwf
    rw [show c = trimS (renderMany body inner ⟨[], st.params⟩).buf from rfl] at hc
    rw [wfNode] at hwf
    simp only [Bool.and_eq_true] at hwf
    rcases ih hwf.2 with ⟨ext1, qs1, heq, hprop⟩
    refine ⟨wrapContent name (trimS (renderMany body inner ⟨[], st.params⟩).buf), qs1, ?_, ?_⟩
    · simp only [renderOne]
      rw [if_neg hc, heq]
    · intro htr
      exfalso
      have hname := hwf.1
      simp only [Bool.or_eq_true, beq_iff_eq] at hname
      rcases hname with rfl | rfl
      · have := trimS_eq_nil_iff.mp htr 'W' (by simp [wrapContent])
        simp [isSpaceC] at this
      · have hset : ('S' : Char) ∈ wrapContent "set".toList
            (trimS (renderMany body inner ⟨[], st.params⟩).buf) := by
          simp [wrapContent]
        have := trimS_eq_nil_iff.mp htr 'S' hset
        simp [isSpaceC] at this
  · intro e body iters st ih hwf
    rw [wfNode] at hwf
    rcases ih hwf with ⟨ext, qs, heq, hprop⟩
    exact ⟨ext, qs, by simp [renderOne, heq], hprop⟩
  · intro brs els pick inner st br hget ih hwf
    rw [wfNode] at hwf
    simp only [Bool.and_eq_true] at hwf
    rcases ih (wfBranches_get hwf.1 hget) with ⟨ext, qs, heq, hprop⟩
    rw [List.get?_eq_getElem?] at hget
    exact ⟨ext, qs, by simp [renderOne, hget, heq], hprop⟩
  · intro brs els pick inner st hget ih hwf
    rw [wfNode] at hwf
    simp only [Bool.and_eq_true] at hwf
    rcases ih hwf.2 with ⟨ext, qs, heq, hprop⟩
    rw [List.get?_eq_getElem?] at hget
    exact ⟨ext, qs, by simp [renderOne, hget, heq], hprop⟩
  · intro t name body st hmt _
    refine ⟨[], [], ?_, fun _ => ⟨rfl, rfl⟩⟩
    cases t with
    | leaf => simp [renderOne]
    | wrap inner => exact absurd rfl (hmt inner)
    | loop iters => simp [renderOne]
    | cond p i => simp [renderOne]
  · intro t e body st hmt _
    refine ⟨[], [], ?_, fun _ => ⟨rfl, rfl⟩⟩
    cases t with
    | leaf => simp [renderOne]
    | wrap inner => simp [renderOne]
    | loop iters => exact absurd rfl (hmt iters)
    | cond p i => simp [renderOne]
  · intro t brs els st hmt _
    refine ⟨[], [], ?_, fun _ => ⟨rfl, rfl⟩⟩
    cases t with
    | leaf => simp [renderOne]
    | wrap inner => simp [renderOne]
    | loop iters => simp [renderOne]
    | cond p i => exact absurd rfl (hmt p i)
  · intro t st _
    exact ⟨[], [], by simp [renderMany], fun _ => ⟨rfl, rfl⟩⟩
  · intro hd tl st _
    exact ⟨[], [], by simp [renderMany], fun _ => ⟨rfl, rfl⟩⟩
  · intro nd nds o os st ih1 ih2 hwf
    rw [wfNodes] at hwf
    simp only [Bool.and_eq_true] at hwf
    rcases ih1 hwf.1 with ⟨e1, q1, heq1, hp1⟩
    rcases ih2 hwf.2 with ⟨e2, q2, heq2, hp2⟩
    refine ⟨e1 ++ e2, q1 ++ q2, ?_, ?_⟩
    · rw [renderMany, heq2, heq1]
      simp
    · intro htr
      rcases trimS_append_eq_nil_iff.mp htr with ⟨ht1, ht2⟩
      rcases hp1 ht1 with ⟨rfl, rfl⟩
      rcases hp2 ht2 with ⟨rfl, rfl⟩
      exact ⟨rfl, rfl⟩
  · intro x st _
    exact ⟨[], [], by simp [renderIters], fun _ => ⟨rfl, rfl⟩⟩
  · intro body it its st ih1 ih2 hwf
    rcases ih1 hwf with ⟨e1, q1, heq1, hp1⟩
    rcases ih2 hwf with ⟨e2, q2, heq2, hp2⟩
    refine ⟨e1 ++ e2, q1 ++ q2, ?_, ?_⟩
    · rw [renderIters, heq2, heq1]
      simp
    · intro htr
      rcases trimS_append_eq_nil_iff.mp htr with ⟨ht1, ht2⟩
      rcases hp1 ht1 with ⟨rfl, rfl⟩
      rcases hp2 ht2 with ⟨rfl, rfl⟩
      exact ⟨rfl, rfl⟩

/-- C3: the wrapper emptiness law.  For every `{{where}}`/`{{set}}` block
(any well-formed body) whose body produces no text at render time under
the fixed outcome — every conditional branch false, every loop with zero
iterations makes the body's local buffer empty — the wrapper appends
nothing to the enclosing output buffer and appends no parameters: the
enclosing state is returned unchanged. -/
theorem c3_wrapper_empty (name : List Char) (body : List Node) (inner : List Out)
    (st : RState) (hwf : wfNodes body = true)
    (hempty : (renderMany body inner ⟨[], st.params⟩).buf = []) :
    renderOne (.func name body) (.wrap inner) st = st := by
  rcases render_frame body inner ⟨[], st.params⟩ hwf with ⟨ext, qs, heq, hprop⟩
  have hext : ext = [] := by
    have hb : (renderMany body inner ⟨[], st.params⟩).buf = ext := by
      rw [heq]
      simp
    rw [hempty] at hb
    exact hb.symm
  subst hext
  rcases hprop rfl with ⟨-, rfl⟩
  simp only [renderOne]
  rw [if_pos (by rw [hempty]; rfl)]
  rw [heq]
  simp

/-- C3 witness: a `where` wrapper whose body is a conditional with no
branch taken (and no else) appends nothing to a nonempty enclosing buffer
and parameter list. -/
theorem c3_wrapper_empty_witness :
    renderOne (.func "where".toList [.ifN [("x > 0".toList, [.text "a=@a AND".toList])] []])
      (.wrap [.cond 1 []]) ⟨"S ".toList, [.table]⟩ = ⟨"S ".toList, [.table]⟩ :=
  c3_wrapper_empty _ _ _ _ (by decide) (by decide)

/-- Every error of the line scanner carries that line's number. -/
theorem scanLineGo_error_line : ∀ (f ln : Nat) (rest : List Char) (st : PState) (e : Err),
    scanLineGo f ln rest st = .error e → e.line = some ln := by
  intro f
  induction f with
  | zero => intro ln rest st e h; simp [scanLineGo] at h
  | succ f ih =>
      intro ln rest st e h
      rw [scanLineGo] at h
      rcases h1 : findSub rest ['\x7b', '\x7b'] with _ | i
      · rw [h1] at h
        simp at h
      · rw [h1] at h
        dsimp only at h
        rcases h2 : findSub (rest.drop (i + 2)) ['\x7d', '\x7d'] with _ | j
        · rw [h2] at h
          simp at h
          rw [← h]
        · rw [h2] at h
          dsimp only at h
          rcases h3 : handleDirective (trimS ((rest.drop (i + 2)).take j))
              (if 0 < i then appendText (rest.take i) st else st) with k | st2
          · rw [h3] at h
            simp at h
            rw [← h]
          · rw [h3] at h
            exact ih ln _ _ e h

/-- Every error of the outer line loop carries a line number at least the
starting line number. -/
theorem parseLines_error_line : ∀ (ls : List (List Char)) (n : Nat) (st : PState) (e : Err),
    parseLines ls n st = .error e → ∃ m, e.line = some m ∧ n ≤ m := by
  intro ls
  induction ls with
  | nil => intro n st e h; simp [parseLines] at h
  | cons l ls ih =>
      intro n st e h
      rw [parseLines] at h
      rcases h1 : scanLine n l st with e2 | st2
      · rw [h1] at h
        simp at h
        subst h
        exact ⟨n, scanLineGo_error_line _ _ _ _ _ h1, Nat.le_refl n⟩
      · rw [h1] at h
        rcases ih (n + 1) st2 e h with ⟨m, hm, hle⟩
        exact ⟨m, hm, by omega⟩

/-- C6 (amended): on every compilation failure the returned program text is
empty, and every error except the unclosed-block-at-end-of-input error
carries a 1-based source line number; the unclosed-block error carries
only its message. -/
theorem c6_amended (tmpl : List Char) (e : Err)
    (h : (RenderSQLTemplate tmpl).2 = some e) :
    (RenderSQLTemplate tmpl).1 = [] ∧
      (e.kind ≠ .unclosedEOF → ∃ n, e.line = some n ∧ 1 ≤ n) := by
  rcases hpt : parseTemplate tmpl with e2 | root
  · have h1 : RenderSQLTemplate tmpl = ([], some e2) := by
      rw [RenderSQLTemplate, hpt]
    rw [h1] at h
    simp at h
    subst h
    refine ⟨by rw [h1], ?_⟩
    intro hk
    rw [parseTemplate] at hpt
    rcases hpl : parseLines (splitNl tmpl) 1 ⟨[], []⟩ with e3 | st
    · rw [hpl] at hpt
      simp at hpt
      subst hpt
      exact parseLines_error_line _ _ _ _ hpl
    · rw [hpl] at hpt
      by_cases hst : st.stack.isEmpty
      · simp [hst] at hpt
      · simp [hst] at hpt
        exact absurd (by rw [← hpt]) hk
  · have h1 : RenderSQLTemplate tmpl = (emitProgram root, none) := by
      rw [RenderSQLTemplate, hpt]
    rw [h1] at h
    simp at h

/-- C6 witness: the amended theorem applied to the failing template `{{`,
whose error carries line number 1. -/
theorem c6_amended_witness :
    (RenderSQLTemplate "\x7b\x7b".toList).1 = [] ∧
      (Err.kind ⟨some 1, .missingClose⟩ ≠ .unclosedEOF →
        ∃ n, Err.line ⟨some 1, .missingClose⟩ = some n ∧ 1 ≤ n) :=
  c6_amended ("\x7b\x7b".toList) ⟨some 1, .missingClose⟩ (by decide)

/-- The directive handler fails exactly on an unknown keyword, a misplaced
`else`/`else if` (innermost open block not a conditional, or its `else`
already seen), or an `end` with no open block. -/
theorem handleDirective_error_iff (dir : List Char) (st : PState) :
    isErrE (handleDirective dir st) = true ↔
      (isKnownDirective dir = false ∨ elseMisuse dir st = true ∨ endMisuse dir st = true) := by
  by_cases h1 : dir = "where".toList ∨ dir = "set".toList
  · rcases h1 with rfl | rfl <;>
      simp [handleDirective, isErrE, isKnownDirective, elseMisuse, endMisuse, pushFrame]
  · by_cases h2 : "for ".toList.isPrefixOf dir
    · obtain ⟨t, rfl⟩ := List.isPrefixOf_iff_prefix.mp h2
      simp [handleDirective, isErrE, isKnownDirective, elseMisuse, endMisuse,
        List.isPrefixOf, pushFrame]
    · by_cases h3 : "if ".toList.isPrefixOf dir
      · obtain ⟨t, rfl⟩ := List.isPrefixOf_iff_prefix.mp h3
        simp [handleDirective, isErrE, isKnownDirective, elseMisuse, endMisuse,
          List.isPrefixOf, pushFrame]
      · by_cases h4 : "else if ".toList.isPrefixOf dir
        · obtain ⟨t, rfl⟩ := List.isPrefixOf_iff_prefix.mp h4
          have hd : handleDirective ("else if ".toList ++ t) st =
              handleElseIf (trimS (("else if ".toList ++ t).drop 8)) st := by
            rw [handleDirective]
            rw [if_neg (by simp), if_neg (by simp [List.isPrefixOf]),
              if_neg (by simp [List.isPrefixOf]), if_pos (by simp [List.isPrefixOf])]
          rw [hd]
          have hkn : isKnownDirective ("else if ".toList ++ t) = true := by
            simp [isKnownDirective, List.isPrefixOf]
          have hem : elseMisuse ("else if ".toList ++ t) st =
              (!topOpenIf st || topElseSeen st) := by
            simp [elseMisuse, List.isPrefixOf]
          have hen : endMisuse ("else if ".toList ++ t) st = false := by
            simp [endMisuse]
          rw [hkn, hem, hen]
          rcases st with ⟨root, stack⟩
          rcases stack with _ | ⟨top, rest⟩
          · simp [handleElseIf, isErrE, topOpenIf, topElseSeen]
          · rcases top with ⟨name, body⟩ | ⟨e2, body⟩ | ⟨cl, c2, b, es, eb⟩
            · simp [handleElseIf, isErrE, topOpenIf, topElseSeen]
            · simp [handleElseIf, isErrE, topOpenIf, topElseSeen]
            · rcases es <;> simp [handleElseIf, isErrE, topOpenIf, topElseSeen]
        · by_cases h5 : dir = "else".toList
          · subst h5
            have hd : handleDirective "else".toList st = handleElse st := by
              rw [handleDirective]
              rw [if_neg (by simp), if_neg (by simp [List.isPrefixOf]),
                if_neg (by simp [List.isPrefixOf]), if_neg (by simp [List.isPrefixOf]),
                if_pos rfl]
            rw [hd]
            have hkn : isKnownDirective "else".toList = true := by
              simp [isKnownDirective]
            have hem : elseMisuse "else".toList st = (!topOpenIf st || topElseSeen st) := by
              simp [elseMisuse]
            have hen : endMisuse "else".toList st = false := by
              simp [endMisuse]
            rw [hkn, hem, hen]
            rcases st with ⟨root, stack⟩
            rcases stack with _ | ⟨top, rest⟩
            · simp [handleElse, isErrE, topOpenIf, topElseSeen]
            · rcases top with ⟨name, body⟩ | ⟨e2, body⟩ | ⟨cl, c2, b, es, eb⟩
              · simp [handleElse, isErrE, topOpenIf, topElseSeen]
              · simp [handleElse, isErrE, topOpenIf, topElseSeen]
              · rcases es <;> simp [handleElse, isErrE, topOpenIf, topElseSeen]
          · by_cases h6 : dir = "end".toList
            · subst h6
              have hd : handleDirective "end".toList st = handleEnd st := by
                rw [handleDirective]
                rw [if_neg (by simp), if_neg (by simp [List.isPrefixOf]),
                  if_neg (by simp [List.isPrefixOf]), if_neg (by simp [List.isPrefixOf]),
                  if_neg (by simp), if_pos rfl]
              rw [hd]
              have hkn : isKnownDirective "end".toList = true := by
                simp [isKnownDirective]
              have hem : elseMisuse "end".toList st = false := by
                simp [elseMisuse, List.isPrefixOf]
              have hen : endMisuse "end".toList st = st.stack.isEmpty := by
                simp [endMisuse]
              rw [hkn, hem, hen]
              rcases st with ⟨root, stack⟩
              rcases stack with _ | ⟨top, rest⟩ <;>
                simp [handleEnd, isErrE]
            · have hd : handleDirective dir st = .error (.unknownDirective dir) := by
                rw [handleDirective]
                rw [if_neg h1, if_neg (by simpa using h2), if_neg (by simpa using h3),
                  if_neg (by simpa using h4), if_neg h5, if_neg h6]
              rw [hd]
              have hkn : isKnownDirective dir = false := by
                push_neg at h1
                simp only [isKnownDirective, Bool.or_eq_false_iff, beq_eq_false_iff_ne, ne_eq]
                refine ⟨⟨⟨⟨⟨⟨h1.1, h1.2⟩, ?_⟩, ?_⟩, ?_⟩, h5⟩, h6⟩
                · rw [Bool.eq_false_iff]
                  simpa using h2
                · rw [Bool.eq_false_iff]
                  simpa using h3
                · rw [Bool.eq_false_iff]
                  simpa using h4
              simp [isErrE, hkn]

/-- A line whose first directive opener has no closing braces on the line
fails with the missing-`}}` error for that line. -/
theorem scanLine_missingClose (ln : Nat) (rest : List Char) (st : PState) (i : Nat)
    (h1 : findSub rest ['\x7b', '\x7b'] = some i)
    (h2 : findSub (rest.drop (i + 2)) ['\x7d', '\x7d'] = none) :
    scanLine ln rest st = .error ⟨some ln, .missingClose⟩ := by
  unfold scanLine
  rw [scanLineGo, h1]
  dsimp only
  rw [h2]

/-- Every scan error is the missing-`}}` error or a directive-handler
error. -/
theorem scanLineGo_error_origin : ∀ (f ln : Nat) (rest : List Char) (st : PState) (e : Err),
    scanLineGo f ln rest st = .error e →
      e.kind = .missingClose ∨ ∃ dir st2, handleDirective dir st2 = .error e.kind := by
  intro f
  induction f with
  | zero => intro ln rest st e h; simp [scanLineGo] at h
  | succ f ih =>
      intro ln rest st e h
      rw [scanLineGo] at h
      rcases h1 : findSub rest ['\x7b', '\x7b'] with _ | i
      · rw [h1] at h
        simp at h
      · rw [h1] at h
        dsimp only at h
        rcases h2 : findSub (rest.drop (i + 2)) ['\x7d', '\x7d'] with _ | j
        · rw [h2] at h
          simp at h
          rw [← h]
          exact Or.inl rfl
        · rw [h2] at h
          dsimp only at h
          rcases h3 : handleDirective (trimS ((rest.drop (i + 2)).take j))
              (if 0 < i then appendText (rest.take i) st else st) with k | st2
          · rw [h3] at h
            simp at h
            rw [← h]
            exact Or.inr ⟨_, _, h3⟩
          · rw [h3] at h
            exact ih ln _ _ e h

/-- When scanning succeeds, compilation succeeds exactly when the block
stack is empty at end of input, and otherwise fails with the
unclosed-block error. -/
theorem parse_eof_behavior (tmpl : List Char) (st : PState)
    (h : parseLines (splitNl tmpl) 1 ⟨[], []⟩ = .ok st) :
    (st.stack = [] → (RenderSQLTemplate tmpl).2 = none) ∧
    (st.stack ≠ [] → RenderSQLTemplate tmpl = ([], some ⟨none, .unclosedEOF⟩)) := by
  constructor
  · intro hs
    rw [RenderSQLTemplate, parseTemplate, h]
    dsimp only
    rw [if_pos (by simp [hs])]
  · intro hs
    rw [RenderSQLTemplate, parseTemplate, h]
    dsimp only
    rw [if_neg (by simpa [List.isEmpty_iff] using hs)]

/-- C5 (amended): `RenderSQLTemplate` fails exactly on the malformed
structures of the claim plus the unterminated directive.  (1) the
directive handler fails exactly on an unknown keyword, an `else`/`else if`
whose innermost open block is not a conditional or whose conditional has
already seen `else`, and an `end` with no open block; (2) a directive
opener with no `}}` on its line fails with the missing-close error
carrying the line number; (3) every scanner error is the missing-close
error or a handler error (so no other failure source exists during
scanning); (4) after a clean scan, compilation fails exactly when a block
remains open at end of input, with the unclosed-block error. -/
theorem c5_amended :
    (∀ (dir : List Char) (st : PState), isErrE (handleDirective dir st) = true ↔
      (isKnownDirective dir = false ∨ elseMisuse dir st = true ∨ endMisuse dir st = true)) ∧
    (∀ (ln : Nat) (rest : List Char) (st : PState) (i : Nat),
      findSub rest ['\x7b', '\x7b'] = some i →
      findSub (rest.drop (i + 2)) ['\x7d', '\x7d'] = none →
      scanLine ln rest st = .error ⟨some ln, .missingClose⟩) ∧
    (∀ (f ln : Nat) (rest : List Char) (st : PState) (e : Err),
      scanLineGo f ln rest st = .error e →
      e.kind = .missingClose ∨ ∃ dir st2, handleDirective dir st2 = .error e.kind) ∧
    (∀ (tmpl : List Char) (st : PState),
      parseLines (splitNl tmpl) 1 ⟨[], []⟩ = .ok st →
      (st.stack = [] → (RenderSQLTemplate tmpl).2 = none) ∧
      (st.stack ≠ [] → RenderSQLTemplate tmpl = ([], some ⟨none, .unclosedEOF⟩))) :=
  ⟨handleDirective_error_iff, scanLine_missingClose, scanLineGo_error_origin,
    parse_eof_behavior⟩

/-- C5 witness: by the handler characterization, a bare `end` in the empty
parser state fails (no block is open). -/
theorem c5_amended_witness :
    isErrE (handleDirective "end".toList ⟨[], []⟩) = true :=
  (c5_amended.1 ("end".toList) ⟨[], []⟩).mpr (by decide)

/-- Dropping cannot lengthen a list. -/
theorem length_dropWhile_le (p : Char → Bool) (l : List Char) :
    (l.dropWhile p).length ≤ l.length := by
  induction l with
  | nil => simp [List.dropWhile]
  | cons c cs ih =>
      by_cases h : p c
      · rw [List.dropWhile_cons_of_pos h]
        simp only [List.length_cons]
        omega
      · rw [List.dropWhile_cons_of_neg h]

/-- A trim-invariant nonempty string starts with a non-whitespace
character. -/
theorem trim_self_head {s : List Char} (h : trimS s = s) :
    ∀ c, s.head? = some c → isSpaceC c = false := by
  intro c hc
  by_contra hsp
  simp at hsp
  rcases s with _ | ⟨d, t⟩
  · simp at hc
  · simp at hc
    have hsp2 : isSpaceC d = true := by rw [hc]; exact hsp
    have h1 : (trimS (d :: t)).length ≤ t.length := by
      unfold trimS
      rw [List.dropWhile_cons_of_pos hsp2]
      calc ((t.dropWhile isSpaceC).reverse.dropWhile isSpaceC).reverse.length
          = ((t.dropWhile isSpaceC).reverse.dropWhile isSpaceC).length := by simp
        _ ≤ (t.dropWhile isSpaceC).reverse.length := length_dropWhile_le _ _
        _ = (t.dropWhile isSpaceC).length := by simp
        _ ≤ t.length := length_dropWhile_le _ _
    rw [h] at h1
    simp only [List.length_cons] at h1
    omega

/-- A trim-invariant nonempty string ends with a non-whitespace
character. -/
theorem trim_self_last {s : List Char} (h : trimS s = s) :
    ∀ c, s.getLast? = some c → isSpaceC c = false := by
  intro c hc
  by_contra hsp
  simp at hsp
  have hne : s ≠ [] := by
    intro h0
    rw [h0] at hc
    simp at hc
  have hs1 : 1 ≤ s.length := List.length_pos.mpr hne
  rcases hv : s.dropWhile isSpaceC with _ | ⟨d, u⟩
  · have h1 : (trimS s).length = 0 := by
      unfold trimS
      rw [hv]
      simp
    rw [h] at h1
    omega
  · have hsuf : s.dropWhile isSpaceC <:+ s := List.dropWhile_suffix isSpaceC
    have hlast : (s.dropWhile isSpaceC).getLast? = s.getLast? := by
      rcases hsuf with ⟨pre, hpre⟩
      conv_rhs => rw [← hpre]
      rw [List.getLast?_append_of_ne_nil]
      rw [hv]
      simp
    have hrevhead : (s.dropWhile isSpaceC).reverse.head? = some c := by
      rw [List.head?_reverse, hlast, hc]
    rcases hr : (s.dropWhile isSpaceC).reverse with _ | ⟨d2, u2⟩
    · rw [hr] at hrevhead
      simp at hrevhead
    · rw [hr] at hrevhead
      simp at hrevhead
      have hsp2 : isSpaceC d2 = true := by rw [hrevhead]; exact hsp
      have hlen1 : (trimS s).length ≤ u2.length := by
        unfold trimS
        rw [hr, List.dropWhile_cons_of_pos hsp2]
        calc (u2.dropWhile isSpaceC).reverse.length
            = (u2.dropWhile isSpaceC).length := by simp
          _ ≤ u2.length := length_dropWhile_le _ _
      have hlen2 : (s.dropWhile isSpaceC).length = u2.length + 1 := by
        have h5 : (s.dropWhile isSpaceC).reverse.length = u2.length + 1 := by
          rw [hr]
          simp
        simpa using h5
      have hlen3 : (s.dropWhile isSpaceC).length ≤ s.length :=
        length_dropWhile_le _ _
      rw [h] at hlen1
      omega

/-- A string whose first and last characters are non-whitespace trims to
itself. -/
theorem trimS_eq_self {s : List Char}
    (hh : ∀ c, s.head? = some c → isSpaceC c = false)
    (hl : ∀ c, s.getLast? = some c → isSpaceC c = false) : trimS s = s := by
  rcases s with _ | ⟨c, t⟩
  · rfl
  · have h1 : (c :: t).dropWhile isSpaceC = c :: t :=
      List.dropWhile_cons_of_neg (by simp [hh c (by simp)])
    have h2 : (c :: t).reverse.dropWhile isSpaceC = (c :: t).reverse := by
      rcases hr : (c :: t).reverse with _ | ⟨d, u⟩
      · simp at hr
      · have hd : isSpaceC d = false := by
          apply hl
          rw [← List.head?_reverse, hr]
          simp
        rw [List.dropWhile_cons_of_neg (by simp [hd])]
    unfold trimS
    rw [h1, h2]
    simp

/-- Trimming absorbs a leading space. -/
theorem trimS_cons_space (s : List Char) : trimS (' ' :: s) = trimS s := by
  unfold trimS
  rw [List.dropWhile_cons_of_pos (by decide)]

/-- A trim-invariant string drops no leading whitespace. -/
theorem dropWhile_of_trim_self {s : List Char} (h : trimS s = s) :
    s.dropWhile isSpaceC = s := by
  rcases s with _ | ⟨c, t⟩
  · rfl
  · exact List.dropWhile_cons_of_neg (by simp [trim_self_head h c (by simp)])

/-- Dropping past an appended prefix. -/
theorem drop_append_plus (a x : List Char) (k : Nat) :
    (a ++ x).drop (a.length + k) = x.drop k := by
  rw [← List.drop_drop, List.drop_left]

/-- Appending an empty text span leaves the parser state unchanged. -/
theorem appendText_nil (st : PState) : appendText [] st = st := rfl

/-- The positivity guard around the leading-text append is redundant:
appending an empty take is already the identity. -/
theorem appendText_take_if (i : Nat) (l : List Char) (st : PState) :
    (if 0 < i then appendText (l.take i) st else st) = appendText (l.take i) st := by
  by_cases h : 0 < i
  · rw [if_pos h]
  · rw [if_neg h]
    have h0 : i = 0 := by omega
    subst h0
    rfl

/-- The line scanner ignores fuel beyond the line length. -/
theorem scanLineGo_irrel : ∀ (n m ln : Nat) (rest : List Char) (st : PState),
    rest.length < n → rest.length < m →
    scanLineGo n ln rest st = scanLineGo m ln rest st := by
  intro n
  induction n with
  | zero =>
      intro m ln rest st hn hm
      exact absurd hn (Nat.not_lt_zero _)
  | succ n ih =>
      intro m ln rest st hn hm
      rcases m with _ | m
      · exact absurd hm (Nat.not_lt_zero _)
      · rw [scanLineGo, scanLineGo]
        rcases h1 : findSub rest ['\x7b', '\x7b'] with _ | i
        · rfl
        · dsimp only
          rcases h2 : findSub (rest.drop (i + 2)) ['\x7d', '\x7d'] with _ | j
          · rfl
          · dsimp only
            rcases h3 : handleDirective (trimS ((rest.drop (i + 2)).take j))
                (if 0 < i then appendText (rest.take i) st else st) with k | st2
            · rfl
            · dsimp only
              have hi := findSub_le h1
              have hj := findSub_le h2
              simp only [List.length_cons, List.length_nil, List.length_drop] at hi hj
              apply ih
              · simp only [List.length_drop]
                omega
              · simp only [List.length_drop]
                omega

/-- A line with no directive opener is appended wholesale as text. -/
theorem scanLine_noBrace {ln : Nat} {rest : List Char} {st : PState}
    (h : findSub rest ['\x7b', '\x7b'] = none) :
    scanLine ln rest st = .ok (appendText rest st) := by
  rw [scanLine, scanLineGo, h]

/-- One leading-text-plus-directive step of the line scanner. -/
theorem scanLine_step {ln : Nat} {rest : List Char} {i j : Nat} {st st2 : PState}
    (hi : findSub rest ['\x7b', '\x7b'] = some i)
    (hj : findSub (rest.drop (i + 2)) ['\x7d', '\x7d'] = some j)
    (hd : handleDirective (trimS ((rest.drop (i + 2)).take j)) (appendText (rest.take i) st)
        = .ok st2) :
    scanLine ln rest st = scanLine ln ((rest.drop (i + 2)).drop (j + 2)) st2 := by
  rw [scanLine, scanLine, scanLineGo, hi]
  dsimp only
  rw [hj]
  dsimp only
  rw [appendText_take_if, hd]
  dsimp only
  have h1 := findSub_le hi
  have h2 := findSub_le hj
  simp only [List.length_cons, List.length_nil, List.length_drop] at h1 h2
  apply scanLineGo_irrel
  · simp only [List.length_drop]
    omega
  · simp only [List.length_drop]
    omega

/-- Dispatch of an if-opener directive: the keyword test strips the
keyword and trims the condition. -/
theorem handleDirective_ifKeyword (cond : List Char) (st : PState) :
    handleDirective ("if ".toList ++ cond) st =
      .ok (pushFrame (.fif [] (trimS cond) [] false []) st) := by
  rw [handleDirective]
  rw [if_neg (by simp), if_neg (by simp [List.isPrefixOf]),
    if_pos (by simp [List.isPrefixOf])]
  rw [show ("if ".toList ++ cond).drop 2 = ' ' :: cond from rfl, trimS_cons_space]

/-- Dispatch of a bare else directive. -/
theorem handleDirective_elseKeyword (st : PState) :
    handleDirective ("else".toList) st = handleElse st := by
  rw [handleDirective, if_neg (by decide), if_neg (by decide), if_neg (by decide),
    if_neg (by decide), if_pos rfl]

/-- Dispatch of a bare end directive. -/
theorem handleDirective_endKeyword (st : PState) :
    handleDirective ("end".toList) st = handleEnd st := by
  rw [handleDirective, if_neg (by decide), if_neg (by decide), if_neg (by decide),
    if_neg (by decide), if_neg (by decide), if_pos rfl]

/-- A complete scan step: literal text (free of openers) followed by a
complete directive (free of closers) is consumed in one pass of the scan
loop. -/
theorem scanLine_textDirective (ln : Nat) (txt dir tail : List Char) (st st2 : PState)
    (htxt : ∀ c ∈ txt, c ≠ '\x7b')
    (hdir : ∀ c ∈ dir, c ≠ '\x7d')
    (hd : handleDirective (trimS dir) (appendText txt st) = .ok st2) :
    scanLine ln (txt ++ ('\x7b' :: '\x7b' :: (dir ++ ('\x7d' :: '\x7d' :: tail)))) st =
      scanLine ln tail st2 := by
  have hi : findSub (txt ++ ('\x7b' :: '\x7b' :: (dir ++ ('\x7d' :: '\x7d' :: tail))))
      ['\x7b', '\x7b'] = some txt.length := findSub_doubled_append htxt
  have hdrop1 : (txt ++ ('\x7b' :: '\x7b' :: (dir ++ ('\x7d' :: '\x7d' :: tail)))).drop
      (txt.length + 2) = dir ++ ('\x7d' :: '\x7d' :: tail) := by
    rw [drop_append_plus]
    rfl
  have hj : findSub ((txt ++ ('\x7b' :: '\x7b' :: (dir ++ ('\x7d' :: '\x7d' :: tail)))).drop
      (txt.length + 2)) ['\x7d', '\x7d'] = some dir.length := by
    rw [hdrop1]
    exact findSub_doubled_append hdir
  have htake : ((txt ++ ('\x7b' :: '\x7b' :: (dir ++ ('\x7d' :: '\x7d' :: tail)))).drop
      (txt.length + 2)).take dir.length = dir := by
    rw [hdrop1]
    exact List.take_left _ _
  have htxtTake : (txt ++ ('\x7b' :: '\x7b' :: (dir ++ ('\x7d' :: '\x7d' :: tail)))).take
      txt.length = txt := List.take_left _ _
  have hd2 : handleDirective (trimS (((txt ++ ('\x7b' :: '\x7b' :: (dir ++
      ('\x7d' :: '\x7d' :: tail)))).drop (txt.length + 2)).take dir.length))
      (appendText ((txt ++ ('\x7b' :: '\x7b' :: (dir ++ ('\x7d' :: '\x7d' :: tail)))).take
        txt.length) st) = .ok st2 := by
    rw [htake, htxtTake]
    exact hd
  rw [scanLine_step hi hj hd2, hdrop1, drop_append_plus]
  rfl

/-- C9: for the template family `if cond / body / else / ws / end` (with
doubled-brace delimiters) whose else-section `ws` holds only whitespace
(and `cond`/`body` are plain single-line text), compilation succeeds, the
parsed conditional carries an empty else branch (the whitespace text is
dropped by `appendText`), and the generated program is literally the one
generated for the template without the else-section. -/
theorem c9_empty_else_dropped (cond body ws : List Char)
    (hcne : cond ≠ []) (hct : trimS cond = cond)
    (hcc : ∀ c ∈ cond, c ≠ '\x7b' ∧ c ≠ '\x7d' ∧ c ≠ '\n')
    (hbc : ∀ c ∈ body, c ≠ '\x7b' ∧ c ≠ '\x7d' ∧ c ≠ '\n')
    (hws : ∀ c ∈ ws, c = ' ' ∨ c = '\t') :
    parseTemplate (tmplIfElseEmpty cond body ws) =
        .ok [.ifN [(cond, if trimS body = [] then [] else [.text body])] []] ∧
      RenderSQLTemplate (tmplIfElseEmpty cond body ws) =
        RenderSQLTemplate (tmplIfNoElse cond body) ∧
      (RenderSQLTemplate (tmplIfElseEmpty cond body ws)).2 = none := by
  have hwsTrim : trimS ws = [] := trimS_eq_nil_iff.mpr (fun c hc => by
    rcases hws c hc with rfl | rfl <;> decide)
  have hTnl : ∀ c ∈ tmplIfElseEmpty cond body ws, c ≠ '\n' := by
    intro c hc
    simp only [tmplIfElseEmpty, List.mem_append] at hc
    rcases hc with hc | hc | hc | hc | hc | hc | hc
    · exact (by decide : ∀ x ∈ "\x7b\x7bif ".toList, x ≠ '\n') c hc
    · exact (hcc c hc).2.2
    · exact (by decide : ∀ x ∈ "\x7d\x7d".toList, x ≠ '\n') c hc
    · exact (hbc c hc).2.2
    · exact (by decide : ∀ x ∈ "\x7b\x7belse\x7d\x7d".toList, x ≠ '\n') c hc
    · rcases hws c hc with rfl | rfl <;> decide
    · exact (by decide : ∀ x ∈ "\x7b\x7bend\x7d\x7d".toList, x ≠ '\n') c hc
  have hT2nl : ∀ c ∈ tmplIfNoElse cond body, c ≠ '\n' := by
    intro c hc
    simp only [tmplIfNoElse, List.mem_append] at hc
    rcases hc with hc | hc | hc | hc | hc
    · exact (by decide : ∀ x ∈ "\x7b\x7bif ".toList, x ≠ '\n') c hc
    · exact (hcc c hc).2.2
    · exact (by decide : ∀ x ∈ "\x7d\x7d".toList, x ≠ '\n') c hc
    · exact (hbc c hc).2.2
    · exact (by decide : ∀ x ∈ "\x7b\x7bend\x7d\x7d".toList, x ≠ '\n') c hc
  have hdirIf : ∀ c ∈ "if ".toList ++ cond, c ≠ '\x7d' := by
    intro c hc
    rcases List.mem_append.mp hc with hc | hc
    · exact (by decide : ∀ x ∈ "if ".toList, x ≠ '\x7d') c hc
    · exact (hcc c hc).2.1
  have htrimIf : trimS ("if ".toList ++ cond) = "if ".toList ++ cond := by
    apply trimS_eq_self
    · intro c hc
      rw [show ("if ".toList ++ cond).head? = some 'i' from rfl] at hc
      simp at hc
      subst hc
      decide
    · intro c hc
      rw [List.getLast?_append_of_ne_nil _ hcne] at hc
      exact trim_self_last hct c hc
  have hdIf : handleDirective (trimS ("if ".toList ++ cond))
      (appendText [] (⟨[], []⟩ : PState)) =
      .ok (⟨[], [.fif [] cond [] false []]⟩ : PState) := by
    rw [htrimIf, appendText_nil, handleDirective_ifKeyword, hct]
    rfl
  have hst2 : appendText body (⟨[], [.fif [] cond [] false []]⟩ : PState) =
      (⟨[], [.fif [] cond (if trimS body = [] then [] else [.text body]) false []]⟩ :
        PState) := by
    unfold appendText
    by_cases hb : trimS body = []
    · rw [if_pos hb, if_pos hb]
    · rw [if_neg hb, if_neg hb]
      rfl
  have hdElse : handleDirective (trimS ("else".toList))
      (appendText body (⟨[], [.fif [] cond [] false []]⟩ : PState)) =
      .ok (⟨[], [.fif [] cond (if trimS body = [] then [] else [.text body]) true []]⟩ :
        PState) := by
    rw [show trimS ("else".toList) = "else".toList from rfl, hst2,
      handleDirective_elseKeyword]
    rfl
  have hst3 : appendText ws (⟨[], [.fif [] cond
      (if trimS body = [] then [] else [.text body]) true []]⟩ : PState) =
      (⟨[], [.fif [] cond (if trimS body = [] then [] else [.text body]) true []]⟩ :
        PState) := by
    unfold appendText
    rw [if_pos hwsTrim]
  have hdEnd : handleDirective (trimS ("end".toList))
      (appendText ws (⟨[], [.fif [] cond
        (if trimS body = [] then [] else [.text body]) true []]⟩ : PState)) =
      .ok (⟨[.ifN [(cond, if trimS body = [] then [] else [.text body])] []], []⟩ :
        PState) := by
    rw [show trimS ("end".toList) = "end".toList from rfl, hst3,
      handleDirective_endKeyword]
    rfl
  have hdEnd2 : handleDirective (trimS ("end".toList))
      (appendText body (⟨[], [.fif [] cond [] false []]⟩ : PState)) =
      .ok (⟨[.ifN [(cond, if trimS body = [] then [] else [.text body])] []], []⟩ :
        PState) := by
    rw [show trimS ("end".toList) = "end".toList from rfl, hst2,
      handleDirective_endKeyword]
    rfl
  have s1 : scanLine 1 (tmplIfElseEmpty cond body ws) (⟨[], []⟩ : PState) =
      scanLine 1 (body ++ ('\x7b' :: '\x7b' :: ("else".toList ++ ('\x7d' :: '\x7d' ::
        (ws ++ ('\x7b' :: '\x7b' :: ("end".toList ++ ('\x7d' :: '\x7d' ::
          ([] : List Char)))))))))
        (⟨[], [.fif [] cond [] false []]⟩ : PState) := by
    have h := scanLine_textDirective 1 [] ("if ".toList ++ cond)
      (body ++ ('\x7b' :: '\x7b' :: ("else".toList ++ ('\x7d' :: '\x7d' ::
        (ws ++ ('\x7b' :: '\x7b' :: ("end".toList ++ ('\x7d' :: '\x7d' ::
          ([] : List Char)))))))))
      (⟨[], []⟩ : PState) (⟨[], [.fif [] cond [] false []]⟩ : PState)
      (by simp) hdirIf hdIf
    exact h
  have s2 : scanLine 1 (body ++ ('\x7b' :: '\x7b' :: ("else".toList ++ ('\x7d' :: '\x7d' ::
        (ws ++ ('\x7b' :: '\x7b' :: ("end".toList ++ ('\x7d' :: '\x7d' ::
          ([] : List Char)))))))))
      (⟨[], [.fif [] cond [] false []]⟩ : PState) =
      scanLine 1 (ws ++ ('\x7b' :: '\x7b' :: ("end".toList ++ ('\x7d' :: '\x7d' ::
        ([] : List Char)))))
      (⟨[], [.fif [] cond (if trimS body = [] then [] else [.text body]) true []]⟩ :
        PState) :=
    scanLine_textDirective 1 body ("else".toList) _ _ _
      (fun c hc => (hbc c hc).1) (by decide) hdElse
  have s3 : scanLine 1 (ws ++ ('\x7b' :: '\x7b' :: ("end".toList ++ ('\x7d' :: '\x7d' ::
        ([] : List Char)))))
      (⟨[], [.fif [] cond (if trimS body = [] then [] else [.text body]) true []]⟩ :
        PState) =
      scanLine 1 ([] : List Char)
      (⟨[.ifN [(cond, if trimS body = [] then [] else [.text body])] []], []⟩ :
        PState) :=
    scanLine_textDirective 1 ws ("end".toList) _ _ _
      (fun c hc => by rcases hws c hc with rfl | rfl <;> decide) (by decide) hdEnd
  have s4 : scanLine 1 ([] : List Char)
      (⟨[.ifN [(cond, if trimS body = [] then [] else [.text body])] []], []⟩ :
        PState) =
      .ok (⟨[.ifN [(cond, if trimS body = [] then [] else [.text body])] []], []⟩ :
        PState) :=
    scanLine_noBrace (by decide)
  have hscanElse := s1.trans (s2.trans (s3.trans s4))
  have t1 : scanLine 1 (tmplIfNoElse cond body) (⟨[], []⟩ : PState) =
      scanLine 1 (body ++ ('\x7b' :: '\x7b' :: ("end".toList ++ ('\x7d' :: '\x7d' ::
        ([] : List Char)))))
        (⟨[], [.fif [] cond [] false []]⟩ : PState) := by
    have h := scanLine_textDirective 1 [] ("if ".toList ++ cond)
      (body ++ ('\x7b' :: '\x7b' :: ("end".toList ++ ('\x7d' :: '\x7d' ::
        ([] : List Char)))))
      (⟨[], []⟩ : PState) (⟨[], [.fif [] cond [] false []]⟩ : PState)
      (by simp) hdirIf hdIf
    exact h
  have t2 : scanLine 1 (body ++ ('\x7b' :: '\x7b' :: ("end".toList ++ ('\x7d' :: '\x7d' ::
        ([] : List Char)))))
      (⟨[], [.fif [] cond [] false []]⟩ : PState) =
      scanLine 1 ([] : List Char)
      (⟨[.ifN [(cond, if trimS body = [] then [] else [.text body])] []], []⟩ :
        PState) :=
    scanLine_textDirective 1 body ("end".toList) _ _ _
      (fun c hc => (hbc c hc).1) (by decide) hdEnd2
  have hscanNo := t1.trans (t2.trans s4)
  have hptElse : parseTemplate (tmplIfElseEmpty cond body ws) =
      .ok [.ifN [(cond, if trimS body = [] then [] else [.text body])] []] := by
    rw [parseTemplate, splitNl_no_newline hTnl, parseLines, hscanElse]
    rfl
  have hptNo : parseTemplate (tmplIfNoElse cond body) =
      .ok [.ifN [(cond, if trimS body = [] then [] else [.text body])] []] := by
    rw [parseTemplate, splitNl_no_newline hT2nl, parseLines, hscanNo]
    rfl
  refine ⟨hptElse, ?_, ?_⟩
  · rw [RenderSQLTemplate, RenderSQLTemplate, hptElse, hptNo]
  · rw [RenderSQLTemplate, hptElse]

/-- Closed instance of the empty-else property: condition `x`, body `B`,
else-section a single space. -/
theorem c9_empty_else_dropped_witness :
    (("x".toList : List Char) ≠ [] ∧ trimS ("x".toList) = "x".toList ∧
      (∀ c ∈ ("x".toList : List Char), c ≠ '\x7b' ∧ c ≠ '\x7d' ∧ c ≠ '\n') ∧
      (∀ c ∈ ("B".toList : List Char), c ≠ '\x7b' ∧ c ≠ '\x7d' ∧ c ≠ '\n') ∧
      (∀ c ∈ (" ".toList : List Char), c = ' ' ∨ c = '\t')) ∧
    (parseTemplate (tmplIfElseEmpty ("x".toList) ("B".toList) (" ".toList)) =
        .ok [.ifN [("x".toList,
          if trimS ("B".toList) = [] then [] else [.text ("B".toList)])] []] ∧
      RenderSQLTemplate (tmplIfElseEmpty ("x".toList) ("B".toList) (" ".toList)) =
        RenderSQLTemplate (tmplIfNoElse ("x".toList) ("B".toList)) ∧
      (RenderSQLTemplate (tmplIfElseEmpty ("x".toList) ("B".toList) (" ".toList))).2 =
        none) :=
  ⟨⟨by decide, by decide, by decide, by decide, by decide⟩,
    c9_empty_else_dropped ("x".toList) ("B".toList) (" ".toList)
      (by decide) (by decide) (by decide) (by decide) (by decide)⟩

end GenTpl
